import Mathlib

/-!
Verification of the KeyCraftsman key-generation pipeline
(`src/key_craftsman/key_craftsman.py`).

Shallow embedding conventions:

* Python strings are `List Char`; the constant alphabets mirror Python's
  `string` module (`ascii_letters`, `digits`, `punctuation`, ...).
  `string.punctuation` and `string.whitespace` are written via their ASCII
  codes to keep the file free of escape-sensitive characters; they are
  exactly the CPython constants, in the same order.
* Fallible code returns `Except KCExc`; every `raise KeyException(...)` site
  becomes an `Except.error` carrying the class of the raised exception
  (`PyClass.KeyException`) and the message tag of the raise site.
  `KeyException(...)` calls that are *not* raised (the source uses bare
  constructor calls for advisory log messages) have no effect on control
  flow, so they do not appear in the embedding.
* `random.SystemRandom().sample(population, k)` is embedded as an oracle
  parameter `sample : List Char → ℕ → List Char`; the properties Python
  guarantees for a sample (length `k` when `k ≤ len(population)`, all
  elements drawn from the population, and distinct results when the
  population has distinct elements) are the `SampleSpec` predicate, used
  as a hypothesis.  `takeSample` is one concrete sampler satisfying it.
* `itertools.islice(itertools.cycle(l), n)` is `cycleTake l n`.
* Machine integers are `ℕ`/`ℤ`; `sys.maxsize` is the literal
  `9223372036854775807`.
-/

/-- Python exception classes relevant to this module, with the superclass
relation as written in the source: `class KeyException(BaseException)`
(line 57), the built-in `class Exception(BaseException)`, and the built-in
`class ValueError(Exception)` (raised by the standard-library calls the
pipeline makes: `random.Random.sample` and `textwrap.TextWrapper.wrap`). -/
inductive PyClass where
  | BaseException
  | Exception
  | ValueError
  | KeyException
deriving DecidableEq

/-- Direct superclass of each class, from the `class` statements. -/
def pySuper : PyClass → Option PyClass
  | .BaseException => Option.none
  | .Exception => some .BaseException
  | .ValueError => some .Exception
  | .KeyException => some .BaseException

/-- Ancestor chain of a class (reflexive-transitive closure of `pySuper`,
computed by cases over this finite hierarchy). -/
def pyAncestors : PyClass → List PyClass
  | .BaseException => [PyClass.BaseException]
  | .Exception => [PyClass.Exception, PyClass.BaseException]
  | .ValueError => [PyClass.ValueError, PyClass.Exception, PyClass.BaseException]
  | .KeyException => [PyClass.KeyException, PyClass.BaseException]

/-- Subclass test: `issubclass(a, b)` for this hierarchy. -/
def isSubclass (a b : PyClass) : Bool := pyAncestors a |>.contains b

/-- Semantics of `except H:` — an exception of class `e` is caught iff `e`
is a subclass of the handler class `H`. -/
def exceptCatches (handler exc : PyClass) : Bool := isSubclass exc handler

/-- Embedded exception value: the class raised and the message tag of the
raise site. -/
structure KCExc where
  cls : PyClass
  tag : String
deriving DecidableEq

/-- Python's `string.ascii_lowercase`. -/
def ascii_lowercase : List Char := "abcdefghijklmnopqrstuvwxyz".toList

/-- Python's `string.ascii_uppercase`. -/
def ascii_uppercase : List Char := "ABCDEFGHIJKLMNOPQRSTUVWXYZ".toList

/-- Python's `string.ascii_letters` (lowercase then uppercase). -/
def ascii_letters : List Char := ascii_lowercase ++ ascii_uppercase

/-- Python's `string.digits`. -/
def digitChars : List Char := "0123456789".toList

/-- Python's `string.hexdigits` (`0-9`, `a-f`, `A-F`). -/
def hexdigits : List Char := digitChars ++ "abcdef".toList ++ "ABCDEF".toList

/-- Python's `string.octdigits` (`0-7`). -/
def octdigits : List Char := "01234567".toList

/-- Python's `string.punctuation`: the 32 ASCII punctuation characters, by
code point (codes 33–47, 58–64, 91–96, 123–126, ascending — exactly the
order of the CPython literal). -/
def punctChars : List Char :=
  [33, 34, 35, 36, 37, 38, 39, 40, 41, 42, 43, 44, 45, 46, 47,
   58, 59, 60, 61, 62, 63, 64,
   91, 92, 93, 94, 95, 96,
   123, 124, 125, 126].map Char.ofNat

/-- Python's `string.whitespace`: space, tab, newline, carriage return,
vertical tab, form feed (the CPython order). -/
def whitespaceChars : List Char := [32, 9, 10, 13, 11, 12].map Char.ofNat

/-- Class attribute `_ALL_CHARS = ascii_letters + digits + punctuation`
(line 352). -/
def ALL_CHARS : List Char := ascii_letters ++ digitChars ++ punctChars

/-- Class attribute `_ALL_CHARS_LEN = len(_ALL_CHARS)` (line 353). -/
def ALL_CHARS_LEN : ℕ := ALL_CHARS.length

/-- Class attribute `_MIN_CAPACITY = int(1e5)` (line 354). -/
def MIN_CAPACITY : ℕ := 100000

/-- Class attribute `_MAX_CAPACITY = sys.maxsize` (line 355), the
64-bit platform integer ceiling. -/
def MAX_CAPACITY : ℕ := 9223372036854775807

/-- Keys of `_UNIQUE_DISABLED = {"ascii_punct": 10, "oct_ascii_punct": 2}`
(line 356); the values 10 and 2 are used literally where the source uses
`.values()`. -/
def UNIQUE_DISABLED_KEYS : List String := ["ascii_punct", "oct_ascii_punct"]

/-- Character-keeping predicate of `_filter_chars`: the source removes,
via `str.translate`, every character occurring in
`whitespace + exclude_chars` (line 736-738). -/
def keepPred (exclude_chars : List Char) (c : Char) : Bool :=
  !(decide (c ∈ whitespaceChars) || decide (c ∈ exclude_chars))

/-- Embedding of `KeyCraftsman._filter_chars(chars, exclude_chars=...)`
(lines 682-740) for a string `exclude_chars` and default (empty)
`include_chars`, the only form the generation pipeline uses.  Excluding the
literal string `_ALL_CHARS` raises (lines 714-723, the only raise);
otherwise every character present in `whitespace + exclude_chars` is
removed.  Note the guard is *string equality* with `_ALL_CHARS`, not a
set-coverage test. -/
def filter_chars (chars : List Char) (exclude_chars : List Char) :
    Except KCExc (List Char) :=
  if exclude_chars = ALL_CHARS then
    .error ⟨.KeyException, "INVALID EXCLUSION-TYPE"⟩
  else
    .ok (chars.filter (keepPred exclude_chars))

/-- Integer passthrough of `_filter_chars`: when `exclude_chars` is an
`int`, the `isinstance(exclude_chars, str)` test fails and the input is
returned unchanged (line 740). -/
def filter_chars_int (chars : List Char) : Except KCExc (List Char) := .ok chars

/-- Catalog of `char_excluder` (lines 820-852): the ordered `all_chars`
dict, key by key, with each value the concatenation written in the
source. -/
def excluderTable : List (String × List Char) :=
  [("punct", punctChars),
   ("ascii", ascii_letters),
   ("ascii_lower", ascii_lowercase),
   ("ascii_upper", ascii_uppercase),
   ("ascii_punct", ascii_letters ++ punctChars),
   ("ascii_lower_punct", ascii_lowercase ++ punctChars),
   ("ascii_upper_punct", ascii_uppercase ++ punctChars),
   ("digits", digitChars),
   ("digits_ascii", digitChars ++ ascii_letters),
   ("digits_punct", digitChars ++ punctChars),
   ("digits_ascii_lower", digitChars ++ ascii_lowercase),
   ("digits_ascii_upper", digitChars ++ ascii_uppercase),
   ("digits_ascii_lower_punct", digitChars ++ ascii_lowercase ++ punctChars),
   ("digits_ascii_upper_punct", digitChars ++ ascii_uppercase ++ punctChars),
   ("hexdigits", hexdigits),
   ("hex_punct", hexdigits ++ punctChars),
   ("hex_ascii", hexdigits ++ ascii_letters),
   ("hex_ascii_lower", hexdigits ++ ascii_lowercase),
   ("hex_ascii_upper", hexdigits ++ ascii_uppercase),
   ("hex_ascii_lower_punct", hexdigits ++ ascii_lowercase ++ punctChars),
   ("hex_ascii_upper_punct", hexdigits ++ ascii_uppercase ++ punctChars),
   ("octdigits", octdigits),
   ("oct_punct", octdigits ++ punctChars),
   ("oct_ascii", octdigits ++ ascii_letters),
   ("oct_ascii_lower", octdigits ++ ascii_lowercase),
   ("oct_ascii_upper", octdigits ++ ascii_uppercase),
   ("oct_ascii_punct", octdigits ++ ascii_letters ++ punctChars),
   ("oct_ascii_lower_punct", octdigits ++ ascii_lowercase ++ punctChars),
   ("oct_ascii_upper_punct", octdigits ++ ascii_uppercase ++ punctChars),
   ("rfc_4122", (ascii_lowercase.take 5) ++ ascii_uppercase ++ punctChars),
   ("non_rfc_4122", (ascii_lowercase.drop 5) ++ ascii_uppercase ++ punctChars)]

/-- Dictionary lookup `all_chars.get(key)` over the ordered catalog. -/
def tableLookup (s : String) : List (String × List Char) → Option (List Char)
  | [] => Option.none
  | (k, v) :: rest => if k = s then some v else tableLookup s rest

/-- Exclusion spec as accepted by `exclude_chars`: a `str` (catalog tag or
literal characters) or an `int` (1-based catalog index).  The Python falsy
values `""` and `0` are representable and are treated as "no exclusion" by
the pipeline's truthiness test, exactly as in the source. -/
inductive ExcludeSpec where
  | str (s : String)
  | int (i : ℤ)
deriving DecidableEq

/-- Python truthiness of the `exclude_chars` value (`elif
self._exclude_chars:` on line 1457). -/
def exclTruthy : ExcludeSpec → Bool
  | .str s => !s.isEmpty
  | .int i => decide (i ≠ 0)

/-- Membership test `self._exclude_chars in self._UNIQUE_DISABLED`
(line 1506): true only for the two string keys; an `int` spec is never a
dict key. -/
def isUDKey : ExcludeSpec → Bool
  | .str s => decide (s = "ascii_punct") || decide (s = "oct_ascii_punct")
  | .int _ => false

/-- Embedding of classmethod `char_excluder(key)` (lines 761-879) in its
resolving form (`return_chart`/`include_index` false).  A `str` key is
looked up in the catalog (`all_chars.get(key)`, returning `None` when
absent; the whitespace check on the way is advisory only).  An `int` key
outside `1..len(all_chars)` raises `KeyException` (lines 871-875);
inside the range the entry at that 1-based position is returned
(`idx_chars.get(key)`). -/
def char_excluder : ExcludeSpec → Except KCExc (Option (List Char))
  | .str s => .ok (tableLookup s excluderTable)
  | .int i =>
    if 1 ≤ i ∧ i ≤ (excluderTable.length : ℤ) then
      .ok ((excluderTable.get? (i - 1).toNat).map Prod.snd)
    else
      .error ⟨.KeyException, "INVALID EXCLUSION-INDEX"⟩

/-- Embedding of `_sig_larger(a, b, threshold)` (lines 881-901) for the
two-argument form.  A `threshold` of `0` models the Python default (the
`return_none` path makes it `None`, and `threshold or abs(MAX - MIN)`
replaces it by `abs(_MAX_CAPACITY - _MIN_CAPACITY)`).  The source compares
`math.log1p(abs_diff) <= math.log1p(threshold)`; since `log1p` is a
(weakly) monotone increasing function, on exact reals this comparison is
`abs_diff ≤ threshold`, which is how `status` is embedded here (every
theorem below that relies on `status = true` does so on inputs with
`abs_diff ≤ threshold`, where any weakly monotone floating-point `log1p`
also yields `True`). -/
def sig_larger (a b : ℕ) (threshold : ℕ) : Bool × ℕ :=
  let t := if threshold = 0 then MAX_CAPACITY - MIN_CAPACITY else threshold
  (decide (((a : ℤ) - (b : ℤ)).natAbs ≤ t), max (max a b) t)

/-- Embedding of `_length_checker(length)` (lines 1074-1093) on natural
numbers: `0` is falsy (`not length`) and raises; a length at or above
`_MAX_CAPACITY` raises; a length at or above `_MIN_CAPACITY` only logs a
warning (the `KeyException` there is constructed, not raised). -/
def lengthChecker (L : ℕ) : Except KCExc ℕ :=
  if L = 0 then .error ⟨.KeyException, "INVALID LENGTH"⟩
  else if MAX_CAPACITY ≤ L then .error ⟨.KeyException, "INVALID LENGTH MAX"⟩
  else .ok L

/-- Embedding of `_check_scale(length)` (lines 1021-1072): validate the
length, then pick the working-buffer size from the two `_sig_larger`
probes exactly as the source branches do. -/
def check_scale (L : ℕ) : Except KCExc ℕ :=
  match lengthChecker L with
  | .error e => .error e
  | .ok len =>
    let largeLength := sig_larger len (MAX_CAPACITY - len) 0
    let rngLength := sig_larger len MIN_CAPACITY ALL_CHARS_LEN
    if MIN_CAPACITY ≤ len then
      if largeLength.1 then .ok (len * 2)
      else if rngLength.1 then .ok len
      else .ok largeLength.2
    else .ok rngLength.2

/-- Embedding of `"".join(islice(cycle(l), n))` (line 1442-1443): the first
`n` characters of the infinite cyclic repetition of `l` (empty when `l`
is empty, as `cycle(())` yields nothing). -/
def cycleTake (l : List Char) (n : ℕ) : List Char :=
  if l.length = 0 then []
  else if n ≤ l.length then l.take n
  else l ++ cycleTake l (n - l.length)
termination_by n
decreasing_by omega

/-- Contract of `random.SystemRandom().sample(population, k)` (`_randomify`,
lines 1410-1427) as used by the pipeline: when `k` is at most the
population size, the draw has length `k`, draws only population elements,
and — being a draw without replacement from distinct positions — is
duplicate-free whenever the population is. -/
def SampleSpec (sample : List Char → ℕ → List Char) : Prop :=
  ∀ pop k, k ≤ pop.length →
    (sample pop k).length = k ∧
    (∀ c ∈ sample pop k, c ∈ pop) ∧
    (pop.Nodup → (sample pop k).Nodup)

/-- Concrete sampler used by closed witnesses: take the first `k`
population elements. -/
def takeSample (pop : List Char) (k : ℕ) : List Char := pop.take k

theorem takeSample_spec : SampleSpec takeSample := by
  intro pop k hk
  refine ⟨?_, ?_, ?_⟩
  · simpa [takeSample] using hk
  · intro c hc
    exact (pop.take_sublist k).subset hc
  · intro h
    exact h.sublist (pop.take_sublist k)

/-- Character-set selection of `_generate_key` (lines 1452-1475): start
from the punctuation-filtered buffer, use the raw buffer when
`include_all_chars` is set, otherwise resolve a truthy `exclude_chars`
through `char_excluder` and filter with the catalog entry if found, or
with the spec itself if not (a `str` spec is excluded literally; an `int`
spec falls through `_filter_chars`'s `isinstance(..., str)` test and
leaves the buffer unchanged). -/
def pickFiltered (allChars : List Char) (excl : ExcludeSpec) (includeAll : Bool) :
    Except KCExc (List Char) :=
  match filter_chars allChars punctChars with
  | .error e => .error e
  | .ok baseFiltered =>
    if includeAll then .ok allChars
    else if exclTruthy excl then
      match char_excluder excl with
      | .error e => .error e
      | .ok (some ex) => filter_chars allChars ex
      | .ok Option.none =>
        match excl with
        | .str s => filter_chars allChars s.toList
        | .int _ => filter_chars_int allChars
    else .ok baseFiltered

/-- Uniqueness stage of `_generate_key` (lines 1481-1552).  `is_unique` is
`len(set(generated_key)) == len(generated_key)`.  When the candidate is
not unique: the candidate is kept (and the unique flag dropped, an
advisory) when `bypass_unique_limit` *and* `too_large` *and* (the spec is
a `_UNIQUE_DISABLED` key *or* the candidate length is one of the
`_UNIQUE_DISABLED` sizes 10/2) all hold; otherwise, only when the bypass
is *not* set, a `too_large` length raises and an in-budget length redraws
from `set(all_chars) & set(filtered_chars)` (embedded as the
duplicate-free list of buffer characters occurring in the filtered
buffer; the Python `set` iteration order is irrelevant to any property
proved here); with the bypass set the non-unique candidate falls through
unchanged. -/
def uniqueStage (keyLength : ℕ) (allChars filteredChars generatedKey : List Char)
    (excl : ExcludeSpec) (uniqueChars bypassUnique : Bool)
    (sample : List Char → ℕ → List Char) : Except KCExc (List Char) :=
  if uniqueChars then
    if generatedKey.dedup.length = generatedKey.length then .ok generatedKey
    else
      if bypassUnique ∧ filteredChars.dedup.length < keyLength ∧
          (isUDKey excl ∨ generatedKey.length = 10 ∨ generatedKey.length = 2) then
        .ok generatedKey
      else if bypassUnique = false then
        if filteredChars.dedup.length < keyLength then
          .error ⟨.KeyException, "KEY-LENGTH VALIDATION"⟩
        else
          .ok (sample (allChars.dedup.filter (fun c => decide (c ∈ filteredChars)))
                 (min keyLength allChars.length))
      else .ok generatedKey
  else .ok generatedKey

/-- Embedding of `_generate_key` (lines 1429-1558) for the key (non-word)
mode: validate the length, build the cyclic working buffer of
`_check_scale` size, select the filtered character set, draw
`min(length, len(filtered))` characters, run the uniqueness stage, and
truncate to `length`. -/
def generate_key (L : ℕ) (excl : ExcludeSpec) (includeAll uniqueChars bypassUnique : Bool)
    (sample : List Char → ℕ → List Char) : Except KCExc (List Char) :=
  match lengthChecker L with
  | .error e => .error e
  | .ok keyLength =>
    match check_scale keyLength with
    | .error e => .error e
    | .ok scale =>
      let allChars := cycleTake ALL_CHARS scale
      match pickFiltered allChars excl includeAll with
      | .error e => .error e
      | .ok filteredChars =>
        let generatedKey := sample filteredChars (min keyLength filteredChars.length)
        match uniqueStage keyLength allChars filteredChars generatedKey excl
            uniqueChars bypassUnique sample with
        | .error e => .error e
        | .ok finalKey => .ok (finalKey.take keyLength)

/-- Filtered working buffer determined by a configuration: the value
`filtered_chars` holds when the sampling of `_generate_key` starts
(same stages as `generate_key` up to the draw). -/
def filteredOf (L : ℕ) (excl : ExcludeSpec) (includeAll : Bool) :
    Except KCExc (List Char) :=
  match lengthChecker L with
  | .error e => .error e
  | .ok keyLength =>
    match check_scale keyLength with
    | .error e => .error e
    | .ok scale => pickFiltered (cycleTake ALL_CHARS scale) excl includeAll

/-! ### The pipeline on Python ints

`key_length` is an arbitrary Python `int`, so the validators run on ℤ.
The definitions below repeat the pipeline at that type, translated from
the same source lines as their ℕ counterparts; the ℕ versions above are
their restriction to the validated non-negative inputs.  On ℤ the
`_length_checker` guard `not length or not isinstance(length, int)`
rejects only `0` (the falsy int), so negative lengths flow through. -/

/-- Embedding of `_length_checker(length)` (lines 1074-1093) on Python
ints: `not length` is true only for `0`; a length at or above
`_MAX_CAPACITY` raises; everything else — negative lengths included — is
returned unchanged. -/
def lengthChecker_int (L : ℤ) : Except KCExc ℤ :=
  if L = 0 then .error ⟨.KeyException, "INVALID LENGTH"⟩
  else if (MAX_CAPACITY : ℤ) ≤ L then .error ⟨.KeyException, "INVALID LENGTH MAX"⟩
  else .ok L

/-- Embedding of `_sig_larger(a, b, threshold)` (lines 881-901) on Python
ints, with the same exact-comparison reading of the `math.log1p`
comparison as `sig_larger` (see there). -/
def sig_larger_int (a b : ℤ) (threshold : ℕ) : Bool × ℤ :=
  let t : ℤ := if threshold = 0 then (MAX_CAPACITY : ℤ) - MIN_CAPACITY else threshold
  (decide (|a - b| ≤ t), max (max a b) t)

/-- Embedding of `_check_scale(length)` (lines 1021-1072) on Python ints:
identical branching to `check_scale`, with `abs(MAX_CAPACITY - length)`
taken on ℤ.  For a negative (validated) length the `length >= MIN` test
fails and the scale is `max(max(length, MIN_CAPACITY), ALL_CHARS_LEN)`,
i.e. the soft minimum `100000`. -/
def check_scale_int (L : ℤ) : Except KCExc ℤ :=
  match lengthChecker_int L with
  | .error e => .error e
  | .ok len =>
    let largeLength := sig_larger_int len |(MAX_CAPACITY : ℤ) - len| 0
    let rngLength := sig_larger_int len (MIN_CAPACITY : ℤ) ALL_CHARS_LEN
    if (MIN_CAPACITY : ℤ) ≤ len then
      if largeLength.1 then .ok (len * 2)
      else if rngLength.1 then .ok len
      else .ok largeLength.2
    else .ok rngLength.2

/-- Input guard of `random.SystemRandom().sample(population, k)` (CPython
`random.Random.sample`): a draw size outside `0 <= k <= len(population)`
raises `ValueError("Sample larger than population or is negative")`;
within bounds the draw size is the validated `k`. -/
def sampleGuard (popLen : ℕ) (k : ℤ) : Except KCExc ℕ :=
  if 0 ≤ k ∧ k ≤ (popLen : ℤ) then .ok k.toNat
  else .error ⟨.ValueError, "SAMPLE LARGER THAN POPULATION OR IS NEGATIVE"⟩

/-- Python slice `s[:k]` for an `int` stop: a non-negative stop keeps the
first `k` characters, a negative stop drops the last `|k|`. -/
def pySliceTo (l : List Char) (k : ℤ) : List Char :=
  if 0 ≤ k then l.take k.toNat else l.take (l.length - (-k).toNat)

/-- Uniqueness stage of `_generate_key` (lines 1481-1552) on a Python-int
key length: same branching as `uniqueStage`, with the comparisons against
`key_length` on ℤ and the re-draw going through the `random.sample` input
guard (the source calls `self._randomify` there too, line 1541). -/
def uniqueStage_int (keyLength : ℤ) (allChars filteredChars generatedKey : List Char)
    (excl : ExcludeSpec) (uniqueChars bypassUnique : Bool)
    (sample : List Char → ℕ → List Char) : Except KCExc (List Char) :=
  if uniqueChars then
    if generatedKey.dedup.length = generatedKey.length then .ok generatedKey
    else
      if bypassUnique ∧ (filteredChars.dedup.length : ℤ) < keyLength ∧
          (isUDKey excl ∨ generatedKey.length = 10 ∨ generatedKey.length = 2) then
        .ok generatedKey
      else if bypassUnique = false then
        if (filteredChars.dedup.length : ℤ) < keyLength then
          .error ⟨.KeyException, "KEY-LENGTH VALIDATION"⟩
        else
          match sampleGuard
              (allChars.dedup.filter (fun c => decide (c ∈ filteredChars))).length
              (min keyLength (allChars.length : ℤ)) with
          | .error e => .error e
          | .ok k =>
            .ok (sample (allChars.dedup.filter (fun c => decide (c ∈ filteredChars))) k)
      else .ok generatedKey
  else .ok generatedKey

/-- Embedding of `_generate_key` (lines 1429-1558) on a Python-int
`key_length`: the same stages as `generate_key`, with the draw size
`min(key_length, len(filtered_chars))` checked by the `random.sample`
input guard (a negative validated length reaches that guard and surfaces
the library's `ValueError`) and the final truncation being the Python
slice `[:key_length]`.  The scale is non-negative for every validated
length (`check_scale_int_pos` below), so `islice` receives its `toNat`
unchanged. -/
def generate_key_int (L : ℤ) (excl : ExcludeSpec)
    (includeAll uniqueChars bypassUnique : Bool)
    (sample : List Char → ℕ → List Char) : Except KCExc (List Char) :=
  match lengthChecker_int L with
  | .error e => .error e
  | .ok keyLength =>
    match check_scale_int keyLength with
    | .error e => .error e
    | .ok scale =>
      let allChars := cycleTake ALL_CHARS scale.toNat
      match pickFiltered allChars excl includeAll with
      | .error e => .error e
      | .ok filteredChars =>
        match sampleGuard filteredChars.length
            (min keyLength (filteredChars.length : ℤ)) with
        | .error e => .error e
        | .ok k =>
          match uniqueStage_int keyLength allChars filteredChars
              (sample filteredChars k) excl uniqueChars bypassUnique sample with
          | .error e => .error e
          | .ok finalKey => .ok (pySliceTo finalKey keyLength)

/-- Result of `_punctuation_checker` applied, as `_wrap_text` does, to the
separator-and-whitespace-stripped text (lines 1183-1191).  `_compiler`
builds a regex alternation from the characters of the stripped text and
searches it over the escaped punctuation alternation; the search succeeds
iff some character of the stripped text is a punctuation character — or
the stripped text is empty, in which case the pattern is the empty regex,
which matches unconditionally. -/
def punctDetected (stripped : List Char) : Bool :=
  stripped.isEmpty || stripped.any (fun c => decide (c ∈ punctChars))

/-! ### `textwrap.wrap`

`_wrap_text` hands the text to CPython's `textwrap.wrap(text, width)`
with all-default options (`break_long_words`, `break_on_hyphens`,
`drop_whitespace` on).  The model below embeds that call for
*whitespace-free ASCII* texts — the program's texts are keys drawn from
`_ALL_CHARS`, which contains no whitespace; every theorem that applies
the model restricts itself to such texts.  On whitespace-free input the
wrapper has two phases, both embedded faithfully below:

1. `TextWrapper._split` cuts the text into chunks with `wordsep_re`.
   Without whitespace, each match of that regex starts where the previous
   one ended, and at a given position the first matching alternative is:
   an *em-dash* (a run of two or more hyphens preceded by a
   `[\w!"\x27&.,?]` character and followed by a word character) standing
   alone, or a word consumed lazily until the first position where either
   a hyphen flanked by letters is consumed (lookbehind `letter letter -`
   or `letter - letter -`, lookahead `letter -? letter`), the text ends,
   or an em-dash run follows a `[\w!"\x27&.,?]` character.
2. `TextWrapper._wrap_chunks` packs chunks greedily into lines of at most
   `width` characters; a chunk too long for a whole line is broken by
   `_handle_long_word` (`break_long_words`), preferring a break right
   after the last hyphen in the window when one is preceded by a
   non-hyphen (`break_on_hyphens`), else the window is cut at
   `space_left`.  A width of `0` (the only non-positive `ℕ` width) makes
   `_wrap_chunks` raise `ValueError("invalid width ...")`.

Both phases are written with an explicit fuel so that they are structural
recursions the kernel can evaluate; the fuel `2 * text.length + 1` is an
upper bound on the number of scanner steps (each step consumes a
character or closes a chunk). -/

/-- ASCII reading of the regex class `\w` (the program's texts are ASCII:
keys over `_ALL_CHARS`). -/
def isWordChar (c : Char) : Bool := c.isAlpha || c.isDigit || decide (c = '_')

/-- The regex class `[^\d\W]` (`letter` in `textwrap`): a word character
that is not a digit. -/
def isLetterChar (c : Char) : Bool := isWordChar c && !c.isDigit

/-- The characters of `textwrap`'s `word_punct` class beyond `\w`:
`! " \x27 & . , ?` (written by ASCII code). -/
def wordPunctExtra : List Char := [33, 34, 39, 38, 46, 44, 63].map Char.ofNat

/-- The regex class `[\w!"\x27&.,?]` (`word_punct` in `textwrap`). -/
def isWordPunct (c : Char) : Bool := isWordChar c || decide (c ∈ wordPunctExtra)

/-- Length of the maximal leading run of hyphens. -/
def hyphenRun : List Char → ℕ
  | [] => 0
  | c :: t => if c = '-' then hyphenRun t + 1 else 0

/-- The em-dash pattern `-{2,}(?=\w)` matches at the head: a maximal run
of at least two hyphens followed by a word character. -/
def emDashAhead (right : List Char) : Bool :=
  let r := hyphenRun right
  decide (2 ≤ r) &&
    (match right.drop r with
     | c :: _ => isWordChar c
     | [] => false)

/-- The pattern `letter -? letter` matches at the head of the list.  Read
forward this is `textwrap`'s hyphen lookahead `(?=%(lt)s-?%(lt)s)`; read
on the reversed preceding context it is the hyphen lookbehind
`(?<=%(lt)s{2}-)|(?<=%(lt)s-%(lt)s-)` with the just-consumed hyphen
stripped. -/
def ltOptHyphenLt : List Char → Bool
  | c1 :: c2 :: rest =>
    isLetterChar c1 &&
      (isLetterChar c2 ||
        (decide (c2 = '-') &&
          (match rest with | c3 :: _ => isLetterChar c3 | [] => false)))
  | _ => false

/-- The character immediately before the current position (head of the
reversed consumed context) is in `word_punct`. -/
def headWordPunct : List Char → Bool
  | [] => false
  | c :: _ => isWordPunct c

/-- `TextWrapper._split` on whitespace-free ASCII text: `left` is the
reversed already-consumed text (the regex lookbehinds may cross chunk
boundaries), `acc` the reversed current word chunk (empty at a match
start), `right` the rest.  At a match start the em-dash alternative is
tried first; inside a word the engine stops at the first position where
the flanked-hyphen alternative consumes a hyphen, the text ends, or an
em-dash run follows a `word_punct` character. -/
def splitScan (fuel : ℕ) (left acc right : List Char) : List (List Char) :=
  match fuel with
  | 0 => if acc.isEmpty then [] else [acc.reverse]
  | f + 1 =>
    match right with
    | [] => if acc.isEmpty then [] else [acc.reverse]
    | c :: rest =>
      if acc.isEmpty then
        if decide (c = '-') && headWordPunct left && emDashAhead (c :: rest) then
          let r := hyphenRun (c :: rest)
          (c :: rest).take r ::
            splitScan f (((c :: rest).take r).reverse ++ left) [] ((c :: rest).drop r)
        else
          splitScan f (c :: left) [c] rest
      else
        if decide (c = '-') && ltOptHyphenLt left && ltOptHyphenLt rest then
          (acc.reverse ++ [c]) :: splitScan f (c :: left) [] rest
        else if headWordPunct left && emDashAhead (c :: rest) then
          acc.reverse :: splitScan f left [] (c :: rest)
        else
          splitScan f (c :: left) (c :: acc) rest

/-- Index of the last hyphen of the list, if any (`str.rfind("-")` on the
window). -/
def lastHyphenPos : List Char → Option ℕ
  | [] => Option.none
  | c :: t =>
    match lastHyphenPos t with
    | some h => some (h + 1)
    | Option.none => if c = '-' then some 0 else Option.none

/-- Inner `while` of `_wrap_chunks`: pop chunks onto the current line
while they fit (`cur_len + len(chunk) <= width`); returns the taken
chunks and the remainder. -/
def takeLine (w curLen : ℕ) : List (List Char) → List (List Char) × List (List Char)
  | [] => ([], [])
  | ch :: rest =>
    if curLen + ch.length ≤ w then
      let p := takeLine w (curLen + ch.length) rest
      (ch :: p.1, p.2)
    else ([], ch :: rest)

/-- `_handle_long_word` with the default `break_long_words` and
`break_on_hyphens`: cut the head chunk at `space_left`, preferring the
position right after the last hyphen in the window when that hyphen has a
non-hyphen before it; returns the piece put on the line and the chunk
remainder. -/
def handleLongWord (w curLen : ℕ) (chunk : List Char) : List Char × List Char :=
  let spaceLeft := if w < 1 then 1 else w - curLen
  let cut :=
    if spaceLeft < chunk.length then
      match lastHyphenPos (chunk.take spaceLeft) with
      | some h =>
        if 0 < h ∧ ((chunk.take spaceLeft).take h).any (fun c => !decide (c = '-'))
        then h + 1 else spaceLeft
      | Option.none => spaceLeft
    else spaceLeft
  (chunk.take cut, chunk.drop cut)

/-- Outer `while` of `_wrap_chunks` (no `max_lines`, whitespace-free
chunks): fill a line greedily, break the next chunk when it cannot fit on
any line, and emit the line when non-empty. -/
def packLines (w : ℕ) : ℕ → List (List Char) → List (List Char)
  | 0, _ => []
  | _ + 1, [] => []
  | f + 1, chunks =>
    let p := takeLine w 0 chunks
    let q :=
      match p.2 with
      | [] => (p.1, ([] : List (List Char)))
      | ch :: rest =>
        if w < ch.length then
          let r := handleLongWord w (p.1.map List.length).sum ch
          (p.1 ++ [r.1], r.2 :: rest)
        else (p.1, ch :: rest)
    if q.1.isEmpty then packLines w f q.2
    else q.1.flatten :: packLines w f q.2

/-- `textwrap.wrap(text, width)` on whitespace-free ASCII text: a
non-positive width raises `ValueError` in `_wrap_chunks`; otherwise the
split chunks are packed into lines. -/
def textwrap_wrap (text : List Char) (w : ℕ) : Except KCExc (List (List Char)) :=
  if w = 0 then .error ⟨.ValueError, "INVALID WIDTH"⟩
  else .ok (packLines w (2 * text.length + 1)
    (splitScan (2 * text.length + 1) [] [] text))

/-- The *specification's* reading of fixed-width wrapping (spec §4.4),
stated for comparison with the embedded `textwrap_wrap`: chunk the text
into consecutive runs of `w` characters.  (`specChunksF` carries an
explicit fuel so the definition is structural; `text.length` steps always
suffice.) -/
def specChunksF : ℕ → List Char → ℕ → List (List Char)
  | 0, _, _ => []
  | f + 1, text, w =>
    if text.isEmpty || decide (w = 0) then []
    else text.take w :: specChunksF f (text.drop w) w

/-- Plain chunking into runs of `w` characters — the spec's description
of fixed-width wrapping. -/
def specChunks (text : List Char) (w : ℕ) : List (List Char) :=
  specChunksF text.length text w

/-- Maximum entry of the offset list, as the source reads it: it sorts the
offsets and takes the last (`width[-1]`, line 1248-1249).  For the
non-empty all-non-negative lists that reach this read, folding `max` over
`0` is exactly that value. -/
def offsetsMax (l : List ℤ) : ℤ := l.foldr max 0

/-- Offset-insertion loop of `_wrap_text` (lines 1258-1267): the separator
is prepended to the character at every index occurring in the offset
collection, all characters kept in order.  (The source tests membership in
the sorted copy, which is membership in the original collection; the
redundant first disjunct `idx == 0 and 0 in self._width` is kept.) -/
def insertSep (text sep : List Char) (l : List ℤ) : List Char :=
  (text.enum.map (fun p =>
    if (p.1 = 0 ∧ (0 : ℤ) ∈ l) ∨ (p.1 : ℤ) ∈ l then sep ++ [p.2] else [p.2])).flatten

/-- Fixed-width arm of `_wrap_text` (lines 1208-1234), entered with the
already-defaulted width `w0`: for a text of length ≠ 1 a width at or above
the text length is decremented by one when the gap is at most 1 and raises
otherwise; then the text is wrapped by `textwrap.wrap` and the lines are
joined with the separator (`self._sep.join(textwrap.wrap(...))`,
line 1233). -/
def fixedBranch (text sep : List Char) (w0 : ℕ) : Except KCExc (List Char) :=
  if text.length ≠ 1 ∧ text.length ≤ w0 then
    if ((text.length : ℤ) - (w0 : ℤ)).natAbs ≤ 1 then
      match textwrap_wrap text (w0 - 1) with
      | .error e => .error e
      | .ok lns => .ok (List.intercalate sep lns)
    else
      .error ⟨.KeyException, "INVALID SEP-WIDTH"⟩
  else
    match textwrap_wrap text w0 with
    | .error e => .error e
    | .ok lns => .ok (List.intercalate sep lns)

/-- Offsets arm of `_wrap_text` (lines 1235-1267): every offset must be a
non-negative integer, the largest must not exceed the text length, and
the separator is inserted before the character at each offset. -/
def offsetsBranch (text sep : List Char) (l : List ℤ) : Except KCExc (List Char) :=
  if ¬ (l.all (fun x => decide (0 ≤ x))) then
    .error ⟨.KeyException, "INVALID WIDTH-INDEX"⟩
  else if (text.length : ℤ) < offsetsMax l then
    .error ⟨.KeyException, "INVALID WIDTH-RANGE"⟩
  else
    .ok (insertSep text sep l)

/-- Value of the `sep_width` parameter: absent (`None`), an `int`, or an
iterable of integer offsets. -/
inductive SepWidth where
  | noWidth
  | intWidth (n : ℕ)
  | idxWidth (l : List ℤ)
deriving DecidableEq

/-- Embedding of `_wrap_text(text)` (lines 1169-1267).  Word mode returns
the text unchanged.  Otherwise the punctuation gate runs on the
separator-stripped text (fatal unless `include_all_chars`), and the width
dispatch follows Python truthiness: a falsy width (`None`, `0`, empty
iterable) selects the fixed arm with the default width 4, a non-zero
`int` selects the fixed arm with that width, and a non-empty iterable
selects the offsets arm. -/
def wrap_text (text sep : List Char) (width : SepWidth) (includeAll useWords : Bool) :
    Except KCExc (List Char) :=
  if useWords then .ok text
  else
    match filter_chars text sep with
    | .error e => .error e
    | .ok stripped =>
      if includeAll = false ∧ punctDetected stripped = true then
        .error ⟨.KeyException, "SPECIAL CHARACTERS DETECTED"⟩
      else
        match width with
        | .noWidth => fixedBranch text sep 4
        | .intWidth n => fixedBranch text sep (if n = 0 then 4 else n)
        | .idxWidth l =>
          if l.isEmpty then fixedBranch text sep 4 else offsetsBranch text sep l

/-! Helper lemmas about the cyclic working buffer. -/

theorem length_cycleTake (l : List Char) (n : ℕ) (hl : l.length ≠ 0) :
    (cycleTake l n).length = n := by
  induction n using Nat.strong_induction_on with
  | _ n ih =>
    rw [cycleTake]
    rw [if_neg hl]
    by_cases hn : n ≤ l.length
    · rw [if_pos hn]
      simp [Nat.min_eq_left hn]
    · rw [if_neg hn]
      rw [List.length_append, ih (n - l.length) (by omega)]
      omega

theorem mem_of_mem_cycleTake {l : List Char} {n : ℕ} {c : Char}
    (h : c ∈ cycleTake l n) : c ∈ l := by
  induction n using Nat.strong_induction_on with
  | _ n ih =>
    rw [cycleTake] at h
    by_cases hl : l.length = 0
    · rw [if_pos hl] at h
      simp at h
    · rw [if_neg hl] at h
      by_cases hn : n ≤ l.length
      · rw [if_pos hn] at h
        exact (l.take_sublist n).subset h
      · rw [if_neg hn] at h
        rcases List.mem_append.mp h with h1 | h2
        · exact h1
        · exact ih (n - l.length) (by omega) h2

theorem mem_cycleTake_of_mem {l : List Char} {n : ℕ} {c : Char}
    (hn : l.length ≤ n) (hc : c ∈ l) : c ∈ cycleTake l n := by
  have hl : l.length ≠ 0 := by
    intro h0
    rw [List.length_eq_zero] at h0
    subst h0
    simp at hc
  rw [cycleTake, if_neg hl]
  by_cases h : n ≤ l.length
  · have : n = l.length := le_antisymm h hn
    subst this
    simpa using hc
  · rw [if_neg h]
    exact List.mem_append.mpr (Or.inl hc)

theorem cycleTake_step (l : List Char) (n : ℕ) (hl : l.length ≠ 0)
    (hn : l.length < n) :
    cycleTake l n = l ++ cycleTake l (n - l.length) := by
  rw [cycleTake, if_neg hl, if_neg (by omega)]

theorem count_cycleTake_ge_two {l : List Char} {n : ℕ} {c : Char}
    (hl : l.length ≠ 0) (hn : 2 * l.length ≤ n) (hc : c ∈ l) :
    2 ≤ (cycleTake l n).count c := by
  have hlt : l.length < n := by omega
  have hlink : l.length ≤ n - l.length := by omega
  rw [cycleTake_step l n hl hlt, List.count_append]
  have h1 : 1 ≤ l.count c := List.count_pos_iff.mpr hc
  have h2 : c ∈ cycleTake l (n - l.length) := mem_cycleTake_of_mem hlink hc
  have h3 : 1 ≤ (cycleTake l (n - l.length)).count c := List.count_pos_iff.mpr h2
  omega

theorem length_filter_cycleTake (l : List Char) (p : Char → Bool)
    (hl : l.length ≠ 0) (n : ℕ) :
    ((cycleTake l n).filter p).length
      = (n / l.length) * (l.filter p).length
        + ((l.take (n % l.length)).filter p).length := by
  induction n using Nat.strong_induction_on with
  | _ n ih =>
    rw [cycleTake, if_neg hl]
    by_cases hn : n ≤ l.length
    · rw [if_pos hn]
      by_cases he : n = l.length
      · subst he
        rw [Nat.div_self (by omega), Nat.mod_self]
        simp
      · have hlt : n < l.length := by omega
        rw [Nat.div_eq_of_lt hlt, Nat.mod_eq_of_lt hlt]
        simp
    · rw [if_neg hn]
      have hdiv : n / l.length = (n - l.length) / l.length + 1 :=
        Nat.div_eq_sub_div (by omega) (by omega)
      have hmod : n % l.length = (n - l.length) % l.length :=
        Nat.mod_eq_sub_mod (by omega)
      rw [List.filter_append, List.length_append,
        ih (n - l.length) (by omega), hdiv, hmod]
      ring

/-! Helper lemmas about length validation and the scaling policy. -/

theorem lengthChecker_ok {L kl : ℕ} (h : lengthChecker L = .ok kl) :
    kl = L ∧ 1 ≤ L ∧ L < MAX_CAPACITY := by
  unfold lengthChecker at h
  split at h
  · cases h
  · split at h
    · cases h
    · cases h
      refine ⟨rfl, by omega, by omega⟩

theorem sig_larger_zero (a b : ℕ) : sig_larger a b 0 =
    (decide (((a : ℤ) - (b : ℤ)).natAbs ≤ MAX_CAPACITY - MIN_CAPACITY),
      max (max a b) (MAX_CAPACITY - MIN_CAPACITY)) := by
  simp [sig_larger]

theorem sig_larger_allchars (a b : ℕ) : sig_larger a b ALL_CHARS_LEN =
    (decide (((a : ℤ) - (b : ℤ)).natAbs ≤ 94), max (max a b) 94) := by
  have h94 : ALL_CHARS_LEN = 94 := by decide
  rw [h94]
  simp [sig_larger]

theorem check_scale_ok_bounds {L s : ℕ} (h : check_scale L = .ok s) :
    MIN_CAPACITY ≤ s ∧ L ≤ s ∧ 1 ≤ L ∧ L < MAX_CAPACITY := by
  have hmm : MIN_CAPACITY ≤ MAX_CAPACITY - MIN_CAPACITY := by
    norm_num [MIN_CAPACITY, MAX_CAPACITY]
  unfold check_scale at h
  split at h
  · cases h
  next len hlc =>
    obtain ⟨hlen, hL1, hLmax⟩ := lengthChecker_ok hlc
    subst hlen
    simp only [sig_larger_zero, sig_larger_allchars] at h
    split at h
    · split at h
      · cases h
        exact ⟨by omega, by omega, hL1, hLmax⟩
      · split at h
        · cases h
          exact ⟨by omega, by omega, hL1, hLmax⟩
        · cases h
          exact ⟨by omega, by omega, hL1, hLmax⟩
    · cases h
      exact ⟨by omega, by omega, hL1, hLmax⟩

/-! Helper lemmas about duplicate structure. -/

theorem dedup_length_lt_of_not_nodup {l : List Char} (h : ¬ l.Nodup) :
    l.dedup.length < l.length := by
  have hsub : l.dedup.length ≤ l.length := (List.dedup_sublist l).length_le
  rcases lt_or_eq_of_le hsub with hlt | heq
  · exact hlt
  · exfalso
    have : l.dedup = l := (List.dedup_sublist l).eq_of_length heq
    exact h (List.dedup_eq_self.mp this)

theorem dedup_length_eq_iff_nodup {l : List Char} :
    l.dedup.length = l.length ↔ l.Nodup := by
  constructor
  · intro h
    exact List.dedup_eq_self.mp ((List.dedup_sublist l).eq_of_length h)
  · intro h
    rw [List.dedup_eq_self.mpr h]

theorem nodup_length_le_dedup {cand l : List Char} (hnd : cand.Nodup)
    (hsub : ∀ c ∈ cand, c ∈ l) : cand.length ≤ l.dedup.length := by
  have hsp : List.Subperm cand l.dedup := by
    apply List.subperm_of_subset hnd
    intro c hc
    exact List.mem_dedup.mpr (hsub c hc)
  exact hsp.length_le

/-! Helper lemmas about the character-set selection stage. -/

theorem tableLookup_mem {s : String} {ex : List Char}
    {t : List (String × List Char)} (h : tableLookup s t = some ex) :
    ex ∈ t.map Prod.snd := by
  induction t with
  | nil => cases h
  | cons hd tl ih =>
    rw [tableLookup] at h
    split at h
    · cases h
      simp
    · simp only [List.map_cons, List.mem_cons]
      exact Or.inr (ih h)

theorem excluderTable_ne_all :
    ∀ ex ∈ excluderTable.map Prod.snd, ex ≠ ALL_CHARS := by decide

theorem pickFiltered_shape {a : List Char} {excl : ExcludeSpec} {ia : Bool}
    {fl : List Char} (h : pickFiltered a excl ia = .ok fl) :
    fl = a ∨ ∃ ex : List Char, fl = a.filter (keepPred ex) := by
  unfold pickFiltered at h
  split at h
  · cases h
  next base hbase =>
    have hbase' : base = a.filter (keepPred punctChars) := by
      unfold filter_chars at hbase
      split at hbase
      · cases hbase
      · cases hbase
        rfl
    split at h
    · cases h
      exact Or.inl rfl
    · split at h
      · split at h
        · cases h
        next ex hce =>
          unfold filter_chars at h
          split at h
          · cases h
          · cases h
            exact Or.inr ⟨ex, rfl⟩
        · split at h
          · unfold filter_chars at h
            split at h
            · cases h
            · cases h
              exact Or.inr ⟨_, rfl⟩
          · unfold filter_chars_int at h
            cases h
            exact Or.inl rfl
      · cases h
        exact Or.inr ⟨punctChars, hbase'⟩

theorem pickFiltered_subset {a : List Char} {excl : ExcludeSpec} {ia : Bool}
    {fl : List Char} (h : pickFiltered a excl ia = .ok fl) :
    ∀ c ∈ fl, c ∈ a := by
  rcases pickFiltered_shape h with rfl | ⟨ex, rfl⟩
  · intro c hc
    exact hc
  · intro c hc
    exact (List.mem_filter.mp hc).1

theorem pickFiltered_catalog {a : List Char} {excl : ExcludeSpec}
    {ex : List Char} (ht : exclTruthy excl = true)
    (hce : char_excluder excl = .ok (some ex)) (hne : ex ≠ ALL_CHARS) :
    pickFiltered a excl false = .ok (a.filter (keepPred ex)) := by
  unfold pickFiltered
  have hpunct : punctChars ≠ ALL_CHARS := by decide
  rw [filter_chars, if_neg hpunct]
  simp only [Bool.false_eq_true, if_false, ht, if_true, hce]
  rw [filter_chars, if_neg hne]

theorem filtered_not_nodup {s : ℕ} {excl : ExcludeSpec} {ia : Bool}
    {fl : List Char} (hs : 2 * ALL_CHARS.length ≤ s)
    (hpf : pickFiltered (cycleTake ALL_CHARS s) excl ia = .ok fl)
    (hne : fl ≠ []) : ¬ fl.Nodup := by
  have hlz : ALL_CHARS.length ≠ 0 := by decide
  intro hnd
  obtain ⟨c, hc⟩ := List.exists_mem_of_ne_nil fl hne
  have hcount := List.nodup_iff_count_le_one.mp hnd c
  rcases pickFiltered_shape hpf with rfl | ⟨ex, rfl⟩
  · have h2 : 2 ≤ (cycleTake ALL_CHARS s).count c :=
      count_cycleTake_ge_two hlz hs (mem_of_mem_cycleTake hc)
    omega
  · obtain ⟨hmem, hkeep⟩ := List.mem_filter.mp hc
    have h2 : 2 ≤ (cycleTake ALL_CHARS s).count c :=
      count_cycleTake_ge_two hlz hs (mem_of_mem_cycleTake hmem)
    rw [List.count_filter hkeep] at hcount
    omega

/-! Helper lemmas connecting the pipeline stages. -/

theorem filteredOf_ok {L : ℕ} {excl : ExcludeSpec} {ia : Bool} {fl : List Char}
    (h : filteredOf L excl ia = .ok fl) :
    ∃ s, check_scale L = .ok s ∧
      pickFiltered (cycleTake ALL_CHARS s) excl ia = .ok fl := by
  unfold filteredOf at h
  split at h
  · cases h
  next kl hlc =>
    obtain ⟨hkl, h1, h2⟩ := lengthChecker_ok hlc
    subst hkl
    split at h
    · cases h
    next s hsc => exact ⟨s, hsc, h⟩

theorem generate_key_eq {L s : ℕ} {excl : ExcludeSpec} {ia : Bool} (u b : Bool)
    (sample : List Char → ℕ → List Char) {fl : List Char}
    (hsc : check_scale L = .ok s)
    (hpf : pickFiltered (cycleTake ALL_CHARS s) excl ia = .ok fl) :
    generate_key L excl ia u b sample =
      match uniqueStage L (cycleTake ALL_CHARS s) fl
          (sample fl (min L fl.length)) excl u b sample with
      | .error e => .error e
      | .ok fk => .ok (fk.take L) := by
  obtain ⟨hm, hl, h1, h2⟩ := check_scale_ok_bounds hsc
  have hlc : lengthChecker L = .ok L := by
    unfold lengthChecker
    rw [if_neg (by omega), if_neg (by omega)]
  unfold generate_key
  simp only [hlc, hsc, hpf]

/-! Helper lemmas about the regeneration population. -/

theorem genSet_nodup (allC fl : List Char) :
    (allC.dedup.filter (fun c => decide (c ∈ fl))).Nodup :=
  (List.nodup_dedup allC).filter _

theorem genSet_subset_fl {allC fl : List Char} {c : Char}
    (hc : c ∈ allC.dedup.filter (fun c => decide (c ∈ fl))) : c ∈ fl :=
  of_decide_eq_true (List.mem_filter.mp hc).2

theorem genSet_length_ge (allC fl : List Char) (hsub : ∀ c ∈ fl, c ∈ allC) :
    fl.dedup.length ≤ (allC.dedup.filter (fun c => decide (c ∈ fl))).length := by
  apply (List.subperm_of_subset (List.nodup_dedup fl) ?_).length_le
  intro c hc
  have hcfl : c ∈ fl := List.mem_dedup.mp hc
  exact List.mem_filter.mpr ⟨List.mem_dedup.mpr (hsub c hcfl), by simpa using hcfl⟩

/-! Helper lemmas describing the uniqueness stage branch by branch. -/

theorem uniqueStage_off {kl : ℕ} {allC fl cand : List Char} {excl : ExcludeSpec}
    {b : Bool} {sample : List Char → ℕ → List Char} :
    uniqueStage kl allC fl cand excl false b sample = .ok cand := rfl

theorem uniqueStage_unique_ok {kl : ℕ} {allC fl cand : List Char}
    {excl : ExcludeSpec} {b : Bool} {sample : List Char → ℕ → List Char}
    (hu : cand.dedup.length = cand.length) :
    uniqueStage kl allC fl cand excl true b sample = .ok cand := by
  unfold uniqueStage
  simp [hu]

theorem uniqueStage_bypass_ok {kl : ℕ} {allC fl cand : List Char}
    {excl : ExcludeSpec} {sample : List Char → ℕ → List Char}
    (hu : ¬ cand.dedup.length = cand.length) :
    uniqueStage kl allC fl cand excl true true sample = .ok cand := by
  unfold uniqueStage
  simp only [if_true, if_neg hu]
  split
  · rfl
  · rw [if_neg (by simp)]

theorem uniqueStage_nobypass_toolarge {kl : ℕ} {allC fl cand : List Char}
    {excl : ExcludeSpec} {sample : List Char → ℕ → List Char}
    (hu : ¬ cand.dedup.length = cand.length) (htl : fl.dedup.length < kl) :
    uniqueStage kl allC fl cand excl true false sample =
      .error ⟨.KeyException, "KEY-LENGTH VALIDATION"⟩ := by
  unfold uniqueStage
  simp [hu, htl]

theorem uniqueStage_nobypass_regen {kl : ℕ} {allC fl cand : List Char}
    {excl : ExcludeSpec} {sample : List Char → ℕ → List Char}
    (hu : ¬ cand.dedup.length = cand.length) (htl : ¬ fl.dedup.length < kl) :
    uniqueStage kl allC fl cand excl true false sample =
      .ok (sample (allC.dedup.filter (fun c => decide (c ∈ fl)))
            (min kl allC.length)) := by
  unfold uniqueStage
  simp [hu, htl]

/-! Helper lemmas: every embedded raise site carries `KeyException`. -/

theorem filter_chars_errCls {chars ex : List Char} {e : KCExc}
    (h : filter_chars chars ex = .error e) : e.cls = .KeyException := by
  unfold filter_chars at h
  split at h
  · cases h
    rfl
  · cases h

theorem char_excluder_errCls {spec : ExcludeSpec} {e : KCExc}
    (h : char_excluder spec = .error e) : e.cls = .KeyException := by
  cases spec with
  | str s => cases h
  | int i =>
    unfold char_excluder at h
    simp only [] at h
    by_cases hb : 1 ≤ i ∧ i ≤ (excluderTable.length : ℤ)
    · rw [if_pos hb] at h
      cases h
    · rw [if_neg hb] at h
      cases h
      rfl

theorem lengthChecker_errCls {L : ℕ} {e : KCExc}
    (h : lengthChecker L = .error e) : e.cls = .KeyException := by
  unfold lengthChecker at h
  split at h
  · cases h
    rfl
  · split at h
    · cases h
      rfl
    · cases h

theorem check_scale_errCls {L : ℕ} {e : KCExc}
    (h : check_scale L = .error e) : e.cls = .KeyException := by
  unfold check_scale at h
  split at h
  · cases h
    exact lengthChecker_errCls (by assumption)
  · simp only [] at h
    split at h <;> first | cases h | (split at h <;> first | cases h | (split at h <;> cases h))

theorem pickFiltered_errCls {a : List Char} {excl : ExcludeSpec} {ia : Bool}
    {e : KCExc} (h : pickFiltered a excl ia = .error e) : e.cls = .KeyException := by
  unfold pickFiltered at h
  split at h
  · cases h
    exact filter_chars_errCls (by assumption)
  · split at h
    · cases h
    · split at h
      · split at h
        · cases h
          exact char_excluder_errCls (by assumption)
        · exact filter_chars_errCls h
        · split at h
          · exact filter_chars_errCls h
          · cases h
      · cases h

theorem uniqueStage_errCls {kl : ℕ} {allC fl cand : List Char}
    {excl : ExcludeSpec} {u b : Bool} {sample : List Char → ℕ → List Char}
    {e : KCExc} (h : uniqueStage kl allC fl cand excl u b sample = .error e) :
    e.cls = .KeyException := by
  unfold uniqueStage at h
  split at h
  · split at h
    · cases h
    · split at h
      · cases h
      · split at h
        · split at h
          · cases h
            rfl
          · cases h
        · cases h
  · cases h

theorem generate_key_errCls {L : ℕ} {excl : ExcludeSpec} {ia u b : Bool}
    {sample : List Char → ℕ → List Char} {e : KCExc}
    (h : generate_key L excl ia u b sample = .error e) : e.cls = .KeyException := by
  unfold generate_key at h
  split at h
  · cases h
    exact lengthChecker_errCls (by assumption)
  · split at h
    · cases h
      exact check_scale_errCls (by assumption)
    · simp only [] at h
      split at h
      · cases h
        exact pickFiltered_errCls (by assumption)
      · split at h
        · cases h
          exact uniqueStage_errCls (by assumption)
        · cases h

theorem textwrap_wrap_errCls {text : List Char} {w : ℕ} {e : KCExc}
    (h : textwrap_wrap text w = .error e) : e.cls = .ValueError := by
  unfold textwrap_wrap at h
  split at h
  · cases h
    rfl
  · cases h

theorem fixedBranch_errCls {text sep : List Char} {w0 : ℕ} {e : KCExc}
    (h : fixedBranch text sep w0 = .error e) :
    e.cls = .KeyException ∨ e.cls = .ValueError := by
  unfold fixedBranch at h
  split at h
  · split at h
    · split at h
      · cases h
        exact Or.inr (textwrap_wrap_errCls (by assumption))
      · cases h
    · cases h
      exact Or.inl rfl
  · split at h
    · cases h
      exact Or.inr (textwrap_wrap_errCls (by assumption))
    · cases h

theorem offsetsBranch_errCls {text sep : List Char} {l : List ℤ} {e : KCExc}
    (h : offsetsBranch text sep l = .error e) : e.cls = .KeyException := by
  unfold offsetsBranch at h
  split at h
  · cases h
    rfl
  · split at h
    · cases h
      rfl
    · cases h

theorem wrap_text_errCls {text sep : List Char} {width : SepWidth}
    {ia uw : Bool} {e : KCExc} (h : wrap_text text sep width ia uw = .error e) :
    e.cls = .KeyException ∨ e.cls = .ValueError := by
  unfold wrap_text at h
  split at h
  · cases h
  · split at h
    · cases h
      exact Or.inl (filter_chars_errCls (by assumption))
    · split at h
      · cases h
        exact Or.inl rfl
      · split at h
        · exact fixedBranch_errCls h
        · exact fixedBranch_errCls h
        · split at h
          · exact fixedBranch_errCls h
          · exact Or.inl (offsetsBranch_errCls h)

/-! Concrete scenario material: exclusion sets and filtered buffers used by
the closed counterexamples and witnesses. -/

/-- Catalog value of the `"ascii_punct"` tag. -/
def asciiPunctExcl : List Char := ascii_letters ++ punctChars

/-- Catalog value of the `"oct_ascii_punct"` tag. -/
def octAsciiPunctExcl : List Char := octdigits ++ ascii_letters ++ punctChars

/-- A literal exclusion string whose character *set* covers the whole
combined alphabet but which differs from the `_ALL_CHARS` string (the
same characters, digits first). -/
def coverAllLiteral : String := String.mk (digitChars ++ ascii_letters ++ punctChars)

/-- Filtered buffer produced by excluding the `"ascii_punct"` catalog set
from the 100000-character working buffer. -/
def flAsciiPunct : List Char :=
  (cycleTake ALL_CHARS 100000).filter (keepPred asciiPunctExcl)

/-- Filtered buffer produced by excluding the `"oct_ascii_punct"` catalog
set from the 100000-character working buffer. -/
def flOct : List Char :=
  (cycleTake ALL_CHARS 100000).filter (keepPred octAsciiPunctExcl)

theorem check_scale_16 : check_scale 16 = .ok 100000 := rfl

theorem check_scale_3000 : check_scale 3000 = .ok 100000 := rfl

theorem filteredOf_eval {L s : ℕ} {excl : ExcludeSpec} {ia : Bool}
    {fl : List Char} (hsc : check_scale L = .ok s)
    (hpf : pickFiltered (cycleTake ALL_CHARS s) excl ia = .ok fl) :
    filteredOf L excl ia = .ok fl := by
  obtain ⟨_, _, h1, h2⟩ := check_scale_ok_bounds hsc
  have hlc : lengthChecker L = .ok L := by
    unfold lengthChecker
    rw [if_neg (by omega), if_neg (by omega)]
  unfold filteredOf
  simp only [hlc, hsc]
  exact hpf

theorem pickFiltered_literal {a : List Char} {s : String}
    (ht : exclTruthy (.str s) = true)
    (hlk : tableLookup s excluderTable = Option.none)
    (hne : s.toList ≠ ALL_CHARS) :
    pickFiltered a (.str s) false = .ok (a.filter (keepPred s.toList)) := by
  unfold pickFiltered
  have hpunct : punctChars ≠ ALL_CHARS := by decide
  rw [filter_chars, if_neg hpunct]
  simp only [Bool.false_eq_true, if_false, ht, if_true]
  simp only [char_excluder, hlk]
  rw [filter_chars, if_neg hne]

theorem char_excluder_ascii_punct :
    char_excluder (.str "ascii_punct") = .ok (some asciiPunctExcl) := rfl

theorem char_excluder_oct_ascii_punct :
    char_excluder (.str "oct_ascii_punct") = .ok (some octAsciiPunctExcl) := rfl

theorem char_excluder_punct :
    char_excluder (.str "punct") = .ok (some punctChars) := rfl

theorem pickFiltered_ascii_punct (s : ℕ) :
    pickFiltered (cycleTake ALL_CHARS s) (.str "ascii_punct") false
      = .ok ((cycleTake ALL_CHARS s).filter (keepPred asciiPunctExcl)) :=
  pickFiltered_catalog (by decide) char_excluder_ascii_punct (by decide)

theorem pickFiltered_oct (s : ℕ) :
    pickFiltered (cycleTake ALL_CHARS s) (.str "oct_ascii_punct") false
      = .ok ((cycleTake ALL_CHARS s).filter (keepPred octAsciiPunctExcl)) :=
  pickFiltered_catalog (by decide) char_excluder_oct_ascii_punct (by decide)

theorem filteredOf_ascii_punct_16 :
    filteredOf 16 (.str "ascii_punct") false = .ok flAsciiPunct :=
  filteredOf_eval check_scale_16 (pickFiltered_ascii_punct 100000)

theorem filteredOf_oct_3000 :
    filteredOf 3000 (.str "oct_ascii_punct") false = .ok flOct :=
  filteredOf_eval check_scale_3000 (pickFiltered_oct 100000)

/-! Structural facts about the concrete filtered buffers. -/

theorem filter_cycleTake_split (l : List Char) (p : Char → Bool) (n : ℕ)
    (hl : l.length ≠ 0) (hn : l.length < n) :
    (cycleTake l n).filter p = l.filter p ++ (cycleTake l (n - l.length)).filter p := by
  rw [cycleTake_step l n hl hn, List.filter_append]

theorem dedup_length_filter_cycleTake (p : Char → Bool) {n : ℕ}
    (hn : ALL_CHARS.length ≤ n) :
    ((cycleTake ALL_CHARS n).filter p).dedup.length
      = (ALL_CHARS.filter p).dedup.length := by
  have hmem : ∀ c, c ∈ (cycleTake ALL_CHARS n).filter p ↔ c ∈ ALL_CHARS.filter p := by
    intro c
    simp only [List.mem_filter]
    constructor
    · rintro ⟨hc, hp⟩
      exact ⟨mem_of_mem_cycleTake hc, hp⟩
    · rintro ⟨hc, hp⟩
      exact ⟨mem_cycleTake_of_mem hn hc, hp⟩
  rw [← List.card_toFinset, ← List.card_toFinset]
  congr 1
  apply Finset.ext
  intro c
  simp only [List.mem_toFinset]
  exact hmem c

theorem take_two_blocks {a R : List Char} {n : ℕ} (h : a.length ≤ n)
    (h2 : n - a.length ≤ a.length) :
    (a ++ (a ++ R)).take n = a ++ a.take (n - a.length) := by
  rw [List.take_append_eq_append_take, List.take_of_length_le h,
    List.take_append_eq_append_take]
  have hz : n - a.length - a.length = 0 := by omega
  rw [hz, List.take_zero, List.append_nil]

theorem ALL_filter_ascii_punct :
    ALL_CHARS.filter (keepPred asciiPunctExcl) = digitChars := by decide

theorem ALL_filter_oct :
    ALL_CHARS.filter (keepPred octAsciiPunctExcl) = "89".toList := by decide

theorem flAsciiPunct_dedup_length : flAsciiPunct.dedup.length = 10 := by
  unfold flAsciiPunct
  rw [dedup_length_filter_cycleTake _ (by decide), ALL_filter_ascii_punct]
  decide

theorem flOct_dedup_length : flOct.dedup.length = 2 := by
  unfold flOct
  rw [dedup_length_filter_cycleTake _ (by decide), ALL_filter_oct]
  decide

theorem flAsciiPunct_length : flAsciiPunct.length = 10640 := by
  unfold flAsciiPunct
  have h94 : ALL_CHARS.length = 94 := by decide
  rw [length_filter_cycleTake ALL_CHARS _ (by decide) 100000, h94,
    ALL_filter_ascii_punct]
  have h2 : ((ALL_CHARS.take (100000 % 94)).filter
      (keepPred asciiPunctExcl)).length = 10 := by decide
  rw [h2]
  decide

theorem flOct_length : flOct.length = 2128 := by
  unfold flOct
  have h94 : ALL_CHARS.length = 94 := by decide
  rw [length_filter_cycleTake ALL_CHARS _ (by decide) 100000, h94, ALL_filter_oct]
  have h2 : ((ALL_CHARS.take (100000 % 94)).filter
      (keepPred octAsciiPunctExcl)).length = 2 := by decide
  rw [h2]
  decide

theorem flAsciiPunct_take16 :
    flAsciiPunct.take 16 = "0123456789012345".toList := by
  unfold flAsciiPunct
  rw [filter_cycleTake_split ALL_CHARS _ 100000 (by decide) (by decide),
    filter_cycleTake_split ALL_CHARS _ (100000 - ALL_CHARS.length)
      (by decide) (by decide),
    ALL_filter_ascii_punct]
  rw [take_two_blocks (by decide) (by decide)]
  decide

/-! Further helper lemmas used by the claim theorems. -/

theorem uniqueStage_ok_shape {kl : ℕ} {allC fl cand : List Char}
    {excl : ExcludeSpec} {u b : Bool} {sample : List Char → ℕ → List Char}
    {fk : List Char}
    (h : uniqueStage kl allC fl cand excl u b sample = .ok fk) :
    fk = cand ∨
      (fk = sample (allC.dedup.filter (fun c => decide (c ∈ fl)))
          (min kl allC.length)
        ∧ ¬ fl.dedup.length < kl) := by
  unfold uniqueStage at h
  split at h
  · split at h
    · cases h
      exact Or.inl rfl
    · split at h
      · cases h
        exact Or.inl rfl
      · split at h
        · split at h
          · cases h
          · cases h
            exact Or.inr ⟨rfl, by assumption⟩
        · cases h
          exact Or.inl rfl
  · cases h
    exact Or.inl rfl

theorem char_excluder_some_mem {spec : ExcludeSpec} {ex : List Char}
    (h : char_excluder spec = .ok (some ex)) :
    ex ∈ excluderTable.map Prod.snd := by
  cases spec with
  | str s =>
    unfold char_excluder at h
    exact tableLookup_mem (Except.ok.inj h)
  | int i =>
    unfold char_excluder at h
    simp only [] at h
    split at h
    · have h' := Except.ok.inj h
      obtain ⟨p, hget, hsnd⟩ := Option.map_eq_some'.mp h'
      exact List.mem_map.mpr ⟨p, List.get?_mem hget, hsnd⟩
    · cases h

theorem char_excluder_some_truthy {spec : ExcludeSpec} {ex : List Char}
    (h : char_excluder spec = .ok (some ex)) : exclTruthy spec = true := by
  cases spec with
  | str s =>
    by_cases hs : s.isEmpty
    · exfalso
      have hse : s = "" := (String.isEmpty_iff s).mp hs
      subst hse
      unfold char_excluder at h
      simp only [] at h
      have hlk : tableLookup "" excluderTable = Option.none := by decide
      rw [hlk] at h
      cases Except.ok.inj h
    · simp [exclTruthy, hs]
  | int i =>
    unfold char_excluder at h
    simp only [] at h
    split at h
    · next hb =>
      simp only [exclTruthy, decide_eq_true_eq]
      omega
    · cases h

/-- Claim C5 — counterexample.  The claim states that for a length at or
above the soft minimum whose gap to the soft minimum is within the
significance threshold the scaling policy returns the length itself; at
`L = _MIN_CAPACITY` (gap 0, within the threshold 94) the policy instead
returns `2 * L = 200000`, because the doubling probe is tested first and
already succeeds there. -/
theorem claim5_counterexample :
    check_scale MIN_CAPACITY = .ok 200000 ∧ 200000 ≠ MIN_CAPACITY :=
  ⟨rfl, by decide⟩

/-- Claim C5 — amended.  The scaling policy of `_check_scale`: below the
soft minimum it returns the soft minimum; at or above it, the doubling
probe (`|L - (MAX - L)|` within the `MAX - MIN` threshold) is tested
*first* and returns `2 * L` — in particular for every length within the
significance band of the soft minimum, where the original claim expected
`L` itself; when the doubling probe fails (only possible for
`L > MAX - MIN/2`) the policy returns `max (max L (MAX - L)) (MAX - MIN)`,
which in that regime equals `L` — the `return L` branch of the source is
unreachable.  (The source compares `log1p` values in floating point; the
embedding compares the arguments exactly, which any weakly monotone
`log1p` matches on the ≤ side used by the doubling clauses.) -/
theorem claim5_amended (L : ℕ) (h1 : 1 ≤ L) (h2 : L < MAX_CAPACITY) :
    (L < MIN_CAPACITY → check_scale L = .ok MIN_CAPACITY)
    ∧ (MIN_CAPACITY ≤ L →
        ((L : ℤ) - ((MAX_CAPACITY - L : ℕ) : ℤ)).natAbs ≤ MAX_CAPACITY - MIN_CAPACITY →
        check_scale L = .ok (L * 2))
    ∧ (MIN_CAPACITY ≤ L → ((L : ℤ) - ((MIN_CAPACITY : ℕ) : ℤ)).natAbs ≤ 94 →
        check_scale L = .ok (L * 2))
    ∧ (MIN_CAPACITY ≤ L →
        ¬ ((L : ℤ) - ((MAX_CAPACITY - L : ℕ) : ℤ)).natAbs ≤ MAX_CAPACITY - MIN_CAPACITY →
        check_scale L = .ok (max (max L (MAX_CAPACITY - L)) (MAX_CAPACITY - MIN_CAPACITY))
          ∧ max (max L (MAX_CAPACITY - L)) (MAX_CAPACITY - MIN_CAPACITY) = L) := by
  have hlc : lengthChecker L = .ok L := by
    unfold lengthChecker
    rw [if_neg (by omega), if_neg (by omega)]
  have hMM : (MIN_CAPACITY : ℤ) = 100000 := by decide
  refine ⟨?_, ?_, ?_, ?_⟩
  · intro hlt
    unfold check_scale
    simp only [hlc, sig_larger_zero, sig_larger_allchars]
    rw [if_neg (by omega)]
    congr 1
    simp [MIN_CAPACITY] at hlt ⊢
    omega
  · intro hge hsig
    unfold check_scale
    simp only [hlc, sig_larger_zero, sig_larger_allchars, decide_eq_true_eq]
    rw [if_pos hge, if_pos hsig]
  · intro hge hband
    unfold check_scale
    simp only [hlc, sig_larger_zero, sig_larger_allchars, decide_eq_true_eq]
    rw [if_pos hge, if_pos ?_]
    simp only [MIN_CAPACITY, MAX_CAPACITY] at hge hband h2 ⊢
    omega
  · intro hge hnsig
    have hfar : MAX_CAPACITY - 50000 < L := by
      simp only [MIN_CAPACITY, MAX_CAPACITY] at hge hnsig h2 ⊢
      omega
    constructor
    · unfold check_scale
      simp only [hlc, sig_larger_zero, sig_larger_allchars, decide_eq_true_eq]
      rw [if_pos hge, if_neg hnsig, if_neg ?_]
      simp only [MIN_CAPACITY, MAX_CAPACITY] at hfar h2 ⊢
      omega
    · simp only [MIN_CAPACITY, MAX_CAPACITY] at hfar h2 ⊢
      omega

/-- Claim C5 — witness for the amended theorem, at `L = 7` (below the soft
minimum, so the policy returns the soft minimum 100000) and at
`L = 100000` (doubling branch). -/
theorem claim5_amended_witness :
    check_scale 7 = .ok MIN_CAPACITY ∧ check_scale 100000 = .ok (100000 * 2) :=
  ⟨(claim5_amended 7 (by decide) (by decide)).1 (by decide),
   (claim5_amended 100000 (by decide) (by decide)).2.1 (by decide) (by decide)⟩

/-- Claim C6 — counterexample.  The claim states that an out-of-range
1-based index yields the `None` sentinel without raising; `char_excluder`
applied to index 0 in fact raises `KeyException` (source lines 871-875). -/
theorem claim6_counterexample :
    char_excluder (.int 0) = .error ⟨.KeyException, "INVALID EXCLUSION-INDEX"⟩ := rfl

/-- Claim C6 — amended.  Catalog resolution: an unknown symbolic tag
returns the `None` sentinel (caller decides the fallback), but an
out-of-range 1-based index raises `KeyException` instead of returning the
sentinel; an in-range index resolves to a catalog entry. -/
theorem claim6_amended :
    (∀ s : String, tableLookup s excluderTable = Option.none →
      char_excluder (.str s) = .ok Option.none)
    ∧ (∀ i : ℤ, ¬ (1 ≤ i ∧ i ≤ (excluderTable.length : ℤ)) →
      char_excluder (.int i) = .error ⟨.KeyException, "INVALID EXCLUSION-INDEX"⟩)
    ∧ (∀ i : ℤ, 1 ≤ i → i ≤ (excluderTable.length : ℤ) →
      ∃ ex, char_excluder (.int i) = .ok (some ex)) := by
  refine ⟨?_, ?_, ?_⟩
  · intro s hlk
    unfold char_excluder
    simp only []
    rw [hlk]
  · intro i hb
    unfold char_excluder
    simp only []
    rw [if_neg hb]
  · intro i hi1 hi2
    unfold char_excluder
    simp only []
    rw [if_pos ⟨hi1, hi2⟩]
    have h31 : excluderTable.length = 31 := by decide
    have hlt : (i - 1).toNat < excluderTable.length := by
      rw [h31] at hi2 ⊢
      omega
    rw [List.get?_eq_get hlt]
    exact ⟨(excluderTable.get ⟨(i - 1).toNat, hlt⟩).2, rfl⟩

/-- Claim C6 — witness: an unknown tag resolves to the sentinel, an
out-of-range index (32, one past the table) raises. -/
theorem claim6_amended_witness :
    char_excluder (.str "no_such_tag") = .ok Option.none
    ∧ char_excluder (.int 32) = .error ⟨.KeyException, "INVALID EXCLUSION-INDEX"⟩ :=
  ⟨claim6_amended.1 "no_such_tag" (by decide),
   claim6_amended.2.1 32 (by decide)⟩

/-! Helper lemmas about the Python-int pipeline, used by claim C10. -/

theorem sig_larger_int_snd (a b : ℤ) (th : ℕ) :
    (sig_larger_int a b th).2
      = max (max a b)
          (if th = 0 then (MAX_CAPACITY : ℤ) - MIN_CAPACITY else th) := rfl

theorem check_scale_int_pos {L s : ℤ} (h : check_scale_int L = .ok s) :
    0 < s := by
  have hmn : (0 : ℤ) < (MIN_CAPACITY : ℤ) := by decide
  have hmx : (0 : ℤ) < (MAX_CAPACITY : ℤ) - (MIN_CAPACITY : ℤ) := by decide
  have hac : (0 : ℤ) < (ALL_CHARS_LEN : ℤ) := by decide
  have hacz : ¬ (ALL_CHARS_LEN = 0) := by decide
  unfold check_scale_int at h
  split at h
  · cases h
  · simp only [] at h
    split at h
    · rename_i hge
      split at h
      · cases h
        omega
      · split at h
        · cases h
          omega
        · cases h
          rw [sig_larger_int_snd, if_pos rfl]
          exact lt_of_lt_of_le hmx (le_max_right _ _)
    · cases h
      rw [sig_larger_int_snd, if_neg hacz]
      exact lt_of_lt_of_le hac (le_max_right _ _)

theorem lengthChecker_int_errCls {L : ℤ} {e : KCExc}
    (h : lengthChecker_int L = .error e) : e.cls = .KeyException := by
  unfold lengthChecker_int at h
  split at h
  · cases h
    rfl
  · split at h
    · cases h
      rfl
    · cases h

theorem check_scale_int_errCls {L : ℤ} {e : KCExc}
    (h : check_scale_int L = .error e) : e.cls = .KeyException := by
  unfold check_scale_int at h
  split at h
  · cases h
    exact lengthChecker_int_errCls (by assumption)
  · simp only [] at h
    split at h
    · split at h
      · cases h
      · split at h
        · cases h
        · cases h
    · cases h

theorem sampleGuard_errCls {n : ℕ} {k : ℤ} {e : KCExc}
    (h : sampleGuard n k = .error e) : e.cls = .ValueError := by
  unfold sampleGuard at h
  split at h
  · cases h
  · cases h
    rfl

theorem uniqueStage_int_errCls {kl : ℤ} {allC fl cand : List Char}
    {excl : ExcludeSpec} {u b : Bool} {sample : List Char → ℕ → List Char}
    {e : KCExc}
    (h : uniqueStage_int kl allC fl cand excl u b sample = .error e) :
    e.cls = .KeyException ∨ e.cls = .ValueError := by
  unfold uniqueStage_int at h
  split at h
  · split at h
    · cases h
    · split at h
      · cases h
      · split at h
        · split at h
          · cases h
            exact Or.inl rfl
          · split at h
            · cases h
              exact Or.inr (sampleGuard_errCls (by assumption))
            · cases h
        · cases h
  · cases h

theorem generate_key_int_errCls {L : ℤ} {excl : ExcludeSpec} {ia u b : Bool}
    {sample : List Char → ℕ → List Char} {e : KCExc}
    (h : generate_key_int L excl ia u b sample = .error e) :
    e.cls = .KeyException ∨ e.cls = .ValueError := by
  unfold generate_key_int at h
  split at h
  · cases h
    exact Or.inl (lengthChecker_int_errCls (by assumption))
  · split at h
    · cases h
      exact Or.inl (check_scale_int_errCls (by assumption))
    · simp only [] at h
      split at h
      · cases h
        exact Or.inl (pickFiltered_errCls (by assumption))
      · split at h
        · cases h
          exact Or.inr (sampleGuard_errCls (by assumption))
        · split at h
          · cases h
            exact uniqueStage_int_errCls (by assumption)
          · cases h

theorem lengthChecker_int_neg5 : lengthChecker_int (-5) = .ok (-5) := rfl

theorem check_scale_int_neg5 : check_scale_int (-5) = .ok 100000 := rfl

/-- With no exclusion spec (falsy empty string) and `include_all_chars`
unset, the pipeline filters the working buffer with `string.punctuation`
(line 1452). -/
theorem pickFiltered_default (a : List Char) :
    pickFiltered a (.str "") false = .ok (a.filter (keepPred punctChars)) := by
  unfold pickFiltered filter_chars
  rw [if_neg (by decide : ¬ (punctChars = ALL_CHARS))]
  rfl

/-- The draw size `min(key_length, len(filtered_chars))` is negative for a
negative key length, so the `random.sample` input guard raises
`ValueError`. -/
theorem sampleGuard_min_neg (popLen n : ℕ) :
    sampleGuard popLen (min (-5 : ℤ) (n : ℤ))
      = .error ⟨.ValueError, "SAMPLE LARGER THAN POPULATION OR IS NEGATIVE"⟩ := by
  unfold sampleGuard
  rw [if_neg]
  omega

/-- Claim C10 — counterexample.  The claim says *every* fatal generator
condition raises `KeyException`.  But `key_length = -5` passes
`_length_checker` (only falsy `0` and lengths at or above the capacity are
rejected), `_check_scale` returns the soft minimum `100000`, and the draw
`random.sample(filtered, k=min(-5, len(filtered)))` raises the library's
`ValueError` — which, being an `Exception` subclass, a standard
`except Exception` handler *does* catch (while it never catches
`KeyException`). -/
theorem claim10_counterexample :
    generate_key_int (-5) (.str "") false false false takeSample
        = .error ⟨.ValueError, "SAMPLE LARGER THAN POPULATION OR IS NEGATIVE"⟩
      ∧ exceptCatches .Exception .ValueError = true
      ∧ exceptCatches .Exception .KeyException = false := by
  refine ⟨?_, rfl, rfl⟩
  unfold generate_key_int
  rw [lengthChecker_int_neg5]
  simp only []
  rw [check_scale_int_neg5]
  simp only []
  rw [show ((100000 : ℤ)).toNat = 100000 from rfl]
  rw [pickFiltered_default]
  simp only []
  rw [sampleGuard_min_neg]

/-- Claim C10 — amended.  `KeyException` derives directly from
`BaseException` and is not an `Exception` subclass, so `except Exception`
never catches it, and every *explicit* raise site of the embedded
generator, wrapper and catalog-resolution pipeline carries `KeyException`.
But the claim's universal reading fails: inputs that slip past the
validators (a negative `key_length` reaching `random.sample`, a width of
`0` reaching `textwrap.wrap`) surface the standard library's
`ValueError`, an `Exception` subclass that `except Exception` *does*
catch — so the generator's fatal errors are exactly `KeyException` or
`ValueError`, not `KeyException` alone. -/
theorem claim10_amended :
    (pySuper .KeyException = some .BaseException
      ∧ isSubclass .KeyException .Exception = false
      ∧ exceptCatches .Exception .KeyException = false)
    ∧ (pySuper .ValueError = some .Exception
      ∧ exceptCatches .Exception .ValueError = true)
    ∧ (∀ (L : ℕ) (excl : ExcludeSpec) (ia u b : Bool)
        (sample : List Char → ℕ → List Char) (e : KCExc),
        generate_key L excl ia u b sample = .error e → e.cls = .KeyException)
    ∧ (∀ (spec : ExcludeSpec) (e : KCExc),
        char_excluder spec = .error e → e.cls = .KeyException)
    ∧ (∀ (L : ℤ) (excl : ExcludeSpec) (ia u b : Bool)
        (sample : List Char → ℕ → List Char) (e : KCExc),
        generate_key_int L excl ia u b sample = .error e →
          e.cls = .KeyException ∨ e.cls = .ValueError)
    ∧ (∀ (text sep : List Char) (width : SepWidth) (ia uw : Bool) (e : KCExc),
        wrap_text text sep width ia uw = .error e →
          e.cls = .KeyException ∨ e.cls = .ValueError) :=
  ⟨⟨rfl, rfl, rfl⟩, ⟨rfl, rfl⟩,
   fun _ _ _ _ _ _ _ h => generate_key_errCls h,
   fun _ _ h => char_excluder_errCls h,
   fun _ _ _ _ _ _ _ h => generate_key_int_errCls h,
   fun _ _ _ _ _ _ h => wrap_text_errCls h⟩

/-- Claim C10 — witness for the amended theorem: the concrete fatal run
`key_length = 0` produces a `KeyException`-class error on both the ℕ and
the ℤ pipeline, and `except Exception` does not catch that class. -/
theorem claim10_amended_witness :
    exceptCatches .Exception .KeyException = false
    ∧ (⟨PyClass.KeyException, "INVALID LENGTH"⟩ : KCExc).cls = .KeyException
    ∧ ((⟨PyClass.KeyException, "INVALID LENGTH"⟩ : KCExc).cls = .KeyException
        ∨ (⟨PyClass.KeyException, "INVALID LENGTH"⟩ : KCExc).cls = .ValueError) :=
  ⟨claim10_amended.1.2.2,
   claim10_amended.2.2.1 0 (.str "") false false false takeSample
     ⟨PyClass.KeyException, "INVALID LENGTH"⟩ rfl,
   claim10_amended.2.2.2.2.1 0 (.str "") false false false takeSample
     ⟨PyClass.KeyException, "INVALID LENGTH"⟩ rfl⟩

theorem pickFiltered_ascii_punct_100000 :
    pickFiltered (cycleTake ALL_CHARS 100000) (.str "ascii_punct") false
      = .ok flAsciiPunct :=
  pickFiltered_ascii_punct 100000

theorem cand16_eq :
    takeSample flAsciiPunct (min 16 flAsciiPunct.length)
      = "0123456789012345".toList := by
  have hmin : min 16 flAsciiPunct.length = 16 := by
    rw [flAsciiPunct_length]
    decide
  unfold takeSample
  rw [hmin]
  exact flAsciiPunct_take16

/-- Claim C1 — counterexample.  The claim states the raw assembled key has
exactly `L` characters for every valid `L` and accepted exclusion spec.
With the accepted catalog tag `"oct_ascii_punct"` and `L = 3000` the
filtered buffer holds only 2128 characters (the scaled 100000-character
cyclic buffer keeps only the digits 8 and 9), the draw is capped at
`min(L, len(filtered))`, and the returned key has 2128 ≠ 3000
characters. -/
theorem claim1_counterexample :
    SampleSpec takeSample
    ∧ ∃ res, generate_key 3000 (.str "oct_ascii_punct") false false false takeSample
        = .ok res ∧ res.length = 2128 ∧ res.length ≠ 3000 := by
  refine ⟨takeSample_spec, ?_⟩
  have hrun := generate_key_eq false false takeSample
    check_scale_3000 (pickFiltered_oct 100000)
  simp only [uniqueStage_off] at hrun
  have hl : (List.filter (keepPred octAsciiPunctExcl) (cycleTake ALL_CHARS 100000)).length
      = 2128 := flOct_length
  refine ⟨_, hrun, ?_, ?_⟩
  · simp only [takeSample, List.length_take, hl]
    omega
  · simp only [takeSample, List.length_take, hl]
    omega

/-- Claim C1 — amended.  For every valid length and accepted configuration,
the raw assembled key has exactly `min(L, n)` characters, where `n` is the
length of the filtered working buffer; in particular exactly `L` whenever
the filtered buffer holds at least `L` characters. -/
theorem claim1_amended (L : ℕ) (excl : ExcludeSpec) (ia u b : Bool)
    (sample : List Char → ℕ → List Char) (hs : SampleSpec sample)
    (fl : List Char) (hfl : filteredOf L excl ia = .ok fl)
    (res : List Char) (hr : generate_key L excl ia u b sample = .ok res) :
    res.length = min L fl.length := by
  obtain ⟨s, hsc, hpf⟩ := filteredOf_ok hfl
  obtain ⟨hsmin, hsL, h1, h2⟩ := check_scale_ok_bounds hsc
  have hrun := generate_key_eq u b sample hsc hpf
  rw [hr] at hrun
  have hslen : (cycleTake ALL_CHARS s).length = s :=
    length_cycleTake _ _ (by decide)
  cases huq : uniqueStage L (cycleTake ALL_CHARS s) fl
      (sample fl (min L fl.length)) excl u b sample with
  | error e =>
    rw [huq] at hrun
    cases hrun
  | ok fk =>
    rw [huq] at hrun
    have hres : res = fk.take L := by
      have := Except.ok.inj hrun
      exact this
    subst hres
    rcases uniqueStage_ok_shape huq with rfl | ⟨rfl, hnl⟩
    · have hclen := (hs fl (min L fl.length) (min_le_right _ _)).1
      rw [List.length_take, hclen]
      omega
    · have hsub := pickFiltered_subset hpf
      have hged := genSet_length_ge (cycleTake ALL_CHARS s) fl hsub
      have hd : fl.dedup.length ≤ fl.length := (List.dedup_sublist fl).length_le
      have hk : min L (cycleTake ALL_CHARS s).length
          ≤ ((cycleTake ALL_CHARS s).dedup.filter (fun c => decide (c ∈ fl))).length := by
        rw [hslen]
        omega
      have hrlen := (hs _ _ hk).1
      rw [List.length_take, hrlen, hslen]
      omega

/-- Claim C1 — witness for the amended theorem: the default-length run with
the `"ascii_punct"` exclusion succeeds and the raw key length equals
`min(16, 10640) = 16`. -/
theorem claim1_amended_witness :
    ∃ res, generate_key 16 (.str "ascii_punct") false false false takeSample
      = .ok res ∧ res.length = min 16 flAsciiPunct.length ∧ res.length = 16 := by
  have hrun := generate_key_eq false false takeSample
    check_scale_16 pickFiltered_ascii_punct_100000
  simp only [uniqueStage_off] at hrun
  refine ⟨_, hrun, ?_, ?_⟩
  · exact claim1_amended 16 (.str "ascii_punct") false false false takeSample
      takeSample_spec flAsciiPunct filteredOf_ascii_punct_16 _ hrun
  · have h := claim1_amended 16 (.str "ascii_punct") false false false takeSample
      takeSample_spec flAsciiPunct filteredOf_ascii_punct_16 _ hrun
    rw [h, flAsciiPunct_length]
    decide

set_option maxRecDepth 4000 in
/-- Claim C3 — the code at the failing input.  The exclusion string
`digits + ascii_letters + punctuation` covers every character of the
combined alphabet (first conjunct) yet differs from the `_ALL_CHARS`
string (second conjunct), so the string-equality guard of `_filter_chars`
does not fire and generation completes silently with the empty key
(third conjunct) instead of raising `KeyException` as the claim — and the
source's own comment "Excluding all characters ... is prohibited" —
require. -/
theorem claim3_bug_eval :
    (∀ c ∈ ALL_CHARS, c ∈ coverAllLiteral.toList)
    ∧ coverAllLiteral.toList ≠ ALL_CHARS
    ∧ generate_key 16 (.str coverAllLiteral) false false false takeSample = .ok [] := by
  refine ⟨by decide, by decide, ?_⟩
  have hpf : pickFiltered (cycleTake ALL_CHARS 100000) (.str coverAllLiteral) false
      = .ok ((cycleTake ALL_CHARS 100000).filter (keepPred coverAllLiteral.toList)) :=
    pickFiltered_literal (by decide) (by decide) (by decide)
  have hnil : (cycleTake ALL_CHARS 100000).filter (keepPred coverAllLiteral.toList)
      = [] := by
    rw [List.filter_eq_nil_iff]
    intro a ha
    have hcov : ∀ c ∈ ALL_CHARS, keepPred coverAllLiteral.toList c = false := by decide
    rw [hcov a (mem_of_mem_cycleTake ha)]
    decide
  rw [hnil] at hpf
  have hrun := generate_key_eq false false takeSample
    check_scale_16 hpf
  simp only [uniqueStage_off] at hrun
  simpa [takeSample] using hrun

/-- Claim C7 — confirmed.  For every exclusion spec that resolves through
the catalog (any supported tag or valid 1-based index) and every run of
the generator that succeeds, no character of the returned key belongs to
the resolved excluded set. -/
theorem claim7_exclusion_disjoint (L : ℕ) (spec : ExcludeSpec) (u b : Bool)
    (sample : List Char → ℕ → List Char) (hs : SampleSpec sample)
    (ex : List Char) (hex : char_excluder spec = .ok (some ex))
    (res : List Char) (hr : generate_key L spec false u b sample = .ok res) :
    ∀ c ∈ res, c ∉ ex := by
  have ht := char_excluder_some_truthy hex
  have hne := excluderTable_ne_all ex (char_excluder_some_mem hex)
  unfold generate_key at hr
  split at hr
  · cases hr
  next kl hlc =>
    obtain ⟨hklL, h1, h2⟩ := lengthChecker_ok hlc
    replace hklL := hklL.symm
    subst hklL
    split at hr
    · cases hr
    next s hsc =>
      simp only [] at hr
      split at hr
      · cases hr
      next fl hpf =>
        have hflEq : fl = (cycleTake ALL_CHARS s).filter (keepPred ex) := by
          have hcat := pickFiltered_catalog (a := cycleTake ALL_CHARS s) ht hex hne
          rw [hpf] at hcat
          exact Except.ok.inj hcat
        subst hflEq
        split at hr
        · cases hr
        next fk huq =>
          cases hr
          intro c hc hcex
          have hcfk : c ∈ fk := (List.take_sublist _ _).subset hc
          have hmemfl : ∀ d ∈ (cycleTake ALL_CHARS s).filter (keepPred ex), d ∉ ex := by
            intro d hd
            have hkeep := (List.mem_filter.mp hd).2
            intro hdex
            simp [keepPred, hdex] at hkeep
          rcases uniqueStage_ok_shape huq with rfl | ⟨rfl, hnl⟩
          · have hcmem := (hs _ _ (min_le_right L _)).2.1 c hcfk
            exact hmemfl c hcmem hcex
          · have hsub := pickFiltered_subset hpf
            have hged := genSet_length_ge (cycleTake ALL_CHARS s) _ hsub
            have hd : ((cycleTake ALL_CHARS s).filter (keepPred ex)).dedup.length
                ≤ ((cycleTake ALL_CHARS s).filter (keepPred ex)).length :=
              (List.dedup_sublist _).length_le
            have hslen : (cycleTake ALL_CHARS s).length = s :=
              length_cycleTake _ _ (by decide)
            obtain ⟨hsmin, hsL, _, _⟩ := check_scale_ok_bounds hsc
            have hk : min L (cycleTake ALL_CHARS s).length
                ≤ ((cycleTake ALL_CHARS s).dedup.filter
                    (fun c => decide (c ∈ (cycleTake ALL_CHARS s).filter (keepPred ex)))).length := by
              rw [hslen]
              omega
            have hcmem := (hs _ _ hk).2.1 c hcfk
            exact hmemfl c (genSet_subset_fl hcmem) hcex

/-- Claim C7 — witness: a concrete successful run with the `"punct"` tag
whose key contains no punctuation character. -/
theorem claim7_witness :
    ∃ res, generate_key 16 (.str "punct") false false false takeSample = .ok res
      ∧ ∀ c ∈ res, c ∉ punctChars := by
  have hpf := pickFiltered_catalog (a := cycleTake ALL_CHARS 100000)
    (by decide) char_excluder_punct (by decide)
  have hrun := generate_key_eq false false takeSample
    check_scale_16 hpf
  simp only [uniqueStage_off] at hrun
  exact ⟨_, hrun,
    claim7_exclusion_disjoint 16 (.str "punct") false false takeSample
      takeSample_spec punctChars char_excluder_punct _ hrun⟩

/-- Claim C2 — counterexample.  The claim states that with the uniqueness
constraint enabled every generation that completes without error returns a
pairwise-distinct key.  With `unique_chars` *and* `bypass_unique_limit`
both set, exclusion `"ascii_punct"` and `L = 16`, generation completes
without error and returns the 16-digit key `0123456789012345`, which has
repeated characters. -/
theorem claim2_counterexample :
    SampleSpec takeSample
    ∧ ∃ K, generate_key 16 (.str "ascii_punct") false true true takeSample = .ok K
        ∧ ¬ K.Nodup := by
  refine ⟨takeSample_spec, ?_⟩
  have hrun := generate_key_eq true true takeSample
    check_scale_16 pickFiltered_ascii_punct_100000
  have hnd : ¬ ("0123456789012345".toList.dedup.length
      = "0123456789012345".toList.length) := by decide
  simp only [cand16_eq, uniqueStage_bypass_ok hnd] at hrun
  refine ⟨_, hrun, ?_⟩
  decide

/-- Claim C2 — amended.  With the uniqueness constraint enabled and the
bypass override *not* set: every generation that completes without error
returns a pairwise-distinct key; and whenever the requested length
exceeds the distinct-character budget of a non-empty filtered alphabet,
generation raises `KeyException` and returns no key.  (The original
claim's first clause fails when the bypass override is set — see the
counterexample — and its second clause fails for an empty filtered
alphabet, where the empty candidate is trivially unique and is returned.) -/
theorem claim2_amended (L : ℕ) (excl : ExcludeSpec) (ia : Bool)
    (sample : List Char → ℕ → List Char) (hs : SampleSpec sample) :
    (∀ res, generate_key L excl ia true false sample = .ok res → res.Nodup)
    ∧ (∀ fl, filteredOf L excl ia = .ok fl → fl ≠ [] → fl.dedup.length < L →
        generate_key L excl ia true false sample
          = .error ⟨.KeyException, "KEY-LENGTH VALIDATION"⟩) := by
  constructor
  · intro res hr
    unfold generate_key at hr
    split at hr
    · cases hr
    next kl hlc =>
      obtain ⟨hklL, h1, h2⟩ := lengthChecker_ok hlc
      replace hklL := hklL.symm
      subst hklL
      split at hr
      · cases hr
      next s hsc =>
        simp only [] at hr
        split at hr
        · cases hr
        next fl hpf =>
          split at hr
          · cases hr
          next fk huq =>
            cases hr
            have hnfk : fk.Nodup := by
              by_cases hdc : (sample fl (min L fl.length)).dedup.length
                  = (sample fl (min L fl.length)).length
              · rw [uniqueStage_unique_ok hdc] at huq
                obtain rfl := Except.ok.inj huq
                exact dedup_length_eq_iff_nodup.mp hdc
              · by_cases htl : fl.dedup.length < L
                · rw [uniqueStage_nobypass_toolarge hdc htl] at huq
                  cases huq
                · rw [uniqueStage_nobypass_regen hdc htl] at huq
                  obtain rfl := Except.ok.inj huq
                  have hsub := pickFiltered_subset hpf
                  have hged := genSet_length_ge (cycleTake ALL_CHARS s) fl hsub
                  obtain ⟨hsmin, hsL, _, _⟩ := check_scale_ok_bounds hsc
                  have hslen : (cycleTake ALL_CHARS s).length = s :=
                    length_cycleTake _ _ (by decide)
                  have hk : min L (cycleTake ALL_CHARS s).length
                      ≤ ((cycleTake ALL_CHARS s).dedup.filter
                          (fun c => decide (c ∈ fl))).length := by
                    rw [hslen]
                    omega
                  exact (hs _ _ hk).2.2 (genSet_nodup _ _)
            exact hnfk.sublist (List.take_sublist _ _)
  · intro fl hfl hne htl
    obtain ⟨s, hsc, hpf⟩ := filteredOf_ok hfl
    obtain ⟨hsmin, hsL, h1, h2⟩ := check_scale_ok_bounds hsc
    have h188 : 2 * ALL_CHARS.length ≤ s := by
      have h94 : ALL_CHARS.length = 94 := by decide
      have : MIN_CAPACITY = 100000 := by decide
      omega
    have hflnodup := filtered_not_nodup h188 hpf hne
    have hk : min L fl.length ≤ fl.length := min_le_right _ _
    obtain ⟨hclen, hcmem, _⟩ := hs fl (min L fl.length) hk
    have hfllen : fl.dedup.length < fl.length := dedup_length_lt_of_not_nodup hflnodup
    have hcand_nodup : ¬ (sample fl (min L fl.length)).Nodup := by
      intro hnd
      have hle := nodup_length_le_dedup hnd hcmem
      rw [hclen] at hle
      omega
    have hcand_ne : ¬ ((sample fl (min L fl.length)).dedup.length
        = (sample fl (min L fl.length)).length) := by
      intro he
      exact hcand_nodup (dedup_length_eq_iff_nodup.mp he)
    have hrun := generate_key_eq true false sample hsc hpf
    simp only [uniqueStage_nobypass_toolarge hcand_ne htl] at hrun
    exact hrun

/-- Claim C2 — witness for the amended theorem: the infeasible-uniqueness
run (`L = 16` over the 10-character digit alphabet, no bypass) raises
`KeyException`. -/
theorem claim2_amended_witness :
    generate_key 16 (.str "ascii_punct") false true false takeSample
      = .error ⟨.KeyException, "KEY-LENGTH VALIDATION"⟩ :=
  (claim2_amended 16 (.str "ascii_punct") false takeSample takeSample_spec).2
    flAsciiPunct filteredOf_ascii_punct_16
    (by
      have hpos : 0 < flAsciiPunct.length := by
        rw [flAsciiPunct_length]
        decide
      exact List.length_pos.mp hpos)
    (by
      rw [flAsciiPunct_dedup_length]
      decide)

/-- Claim C4 — counterexample.  The claim states that when uniqueness is
infeasible, generation succeeds whenever the bypass override is set *or*
the exclusion spec is a recognized unique-disabled catalog entry, either
condition alone sufficing.  With the unique-disabled entry
`"ascii_punct"` but the bypass override *not* set (`L = 16`, candidate
not pairwise-distinct, length over the 10-character budget), generation
raises `KeyException` — the catalog exemption alone does not suffice. -/
theorem claim4_counterexample :
    SampleSpec takeSample
    ∧ isUDKey (.str "ascii_punct") = true
    ∧ generate_key 16 (.str "ascii_punct") false true false takeSample
      = .error ⟨.KeyException, "KEY-LENGTH VALIDATION"⟩ := by
  refine ⟨takeSample_spec, by decide, ?_⟩
  have hnd : ¬ ("0123456789012345".toList.dedup.length
      = "0123456789012345".toList.length) := by decide
  have htl : flAsciiPunct.dedup.length < 16 := by
    rw [flAsciiPunct_dedup_length]
    decide
  have hrun := generate_key_eq true false takeSample
    check_scale_16 pickFiltered_ascii_punct_100000
  simp only [cand16_eq, uniqueStage_nobypass_toolarge hnd htl] at hrun
  exact hrun

/-- Claim C4 — amended.  When uniqueness is enabled, the candidate is not
pairwise-distinct, and the requested length exceeds the distinct-character
budget: generation succeeds (returning the truncated non-unique candidate)
*iff* the bypass override is set — with the override the run succeeds
whether or not the spec is a unique-disabled catalog entry (the entry
additionally triggers the advisory that the unique flag is dropped), and
without the override the run raises `KeyException` even for the two
unique-disabled catalog entries. -/
theorem claim4_amended (L : ℕ) (excl : ExcludeSpec) (ia : Bool)
    (sample : List Char → ℕ → List Char)
    (fl : List Char) (hfl : filteredOf L excl ia = .ok fl)
    (hnd : ¬ (sample fl (min L fl.length)).dedup.length
        = (sample fl (min L fl.length)).length)
    (htl : fl.dedup.length < L) :
    generate_key L excl ia true true sample
      = .ok ((sample fl (min L fl.length)).take L)
    ∧ generate_key L excl ia true false sample
      = .error ⟨.KeyException, "KEY-LENGTH VALIDATION"⟩ := by
  obtain ⟨s, hsc, hpf⟩ := filteredOf_ok hfl
  constructor
  · have hrun := generate_key_eq true true sample hsc hpf
    simp only [uniqueStage_bypass_ok hnd] at hrun
    exact hrun
  · have hrun := generate_key_eq true false sample hsc hpf
    simp only [uniqueStage_nobypass_toolarge hnd htl] at hrun
    exact hrun

/-- Claim C4 — witness for the amended theorem at the concrete
unique-disabled scenario (`"ascii_punct"`, `L = 16`): with the bypass the
non-unique candidate is returned, without it the run raises. -/
theorem claim4_amended_witness :
    generate_key 16 (.str "ascii_punct") false true true takeSample
      = .ok ((takeSample flAsciiPunct (min 16 flAsciiPunct.length)).take 16)
    ∧ generate_key 16 (.str "ascii_punct") false true false takeSample
      = .error ⟨.KeyException, "KEY-LENGTH VALIDATION"⟩ :=
  claim4_amended 16 (.str "ascii_punct") false takeSample flAsciiPunct
    filteredOf_ascii_punct_16
    (by
      rw [cand16_eq]
      decide)
    (by
      rw [flAsciiPunct_dedup_length]
      decide)

theorem wrap_text_eval {text sep : List Char} (width : SepWidth)
    (hsep : sep ≠ ALL_CHARS)
    (hp : punctDetected (text.filter (keepPred sep)) = false) :
    wrap_text text sep width false false =
      match width with
      | .noWidth => fixedBranch text sep 4
      | .intWidth n => fixedBranch text sep (if n = 0 then 4 else n)
      | .idxWidth l =>
        if l.isEmpty then fixedBranch text sep 4 else offsetsBranch text sep l := by
  unfold wrap_text
  rw [if_neg (by simp)]
  rw [filter_chars, if_neg hsep]
  simp only []
  rw [if_neg (by simp [hp])]

/-! Helper lemmas for the `textwrap` model on hyphen-free text: the
splitter returns the whole text as a single chunk, and greedy packing of
that single chunk with `break_long_words` is plain chunking into runs of
`width` characters. -/

theorem specChunksF_nil (f w : ℕ) : specChunksF f [] w = [] := by
  cases f <;> rfl

theorem packLines_nil (w f : ℕ) : packLines w f [] = [] := by
  cases f <;> rfl

theorem lastHyphenPos_nohyphen {l : List Char} (h : ∀ c ∈ l, c ≠ '-') :
    lastHyphenPos l = Option.none := by
  induction l with
  | nil => rfl
  | cons c t ih =>
    unfold lastHyphenPos
    rw [ih (fun x hx => h x (List.mem_cons_of_mem c hx))]
    rw [if_neg (h c (List.mem_cons_self c t))]

theorem emDashAhead_nohyphen {c : Char} (rest : List Char) (hc : c ≠ '-') :
    emDashAhead (c :: rest) = false := by
  simp [emDashAhead, hyphenRun, hc]

theorem splitScan_nohyphen (fuel : ℕ) :
    ∀ left acc right : List Char, right.length < fuel →
      (∀ c ∈ right, c ≠ '-') →
      splitScan fuel left acc right
        = if acc.isEmpty && right.isEmpty then [] else [acc.reverse ++ right] := by
  induction fuel with
  | zero =>
    intro left acc right hf _
    omega
  | succ f ih =>
    intro left acc right hf hh
    match right with
    | [] =>
      unfold splitScan
      cases acc <;> simp
    | c :: rest =>
      have hc : c ≠ '-' := hh c (List.mem_cons_self c rest)
      have hrest : ∀ x ∈ rest, x ≠ '-' :=
        fun x hx => hh x (List.mem_cons_of_mem c hx)
      have hfr : rest.length < f := by
        simp only [List.length_cons] at hf
        omega
      unfold splitScan
      simp only []
      by_cases ha : acc.isEmpty
      · rw [if_pos ha]
        rw [if_neg (by simp [hc])]
        rw [ih (c :: left) [c] rest hfr hrest]
        have ha2 : acc = [] := List.isEmpty_iff.mp ha
        subst ha2
        simp
      · rw [if_neg ha]
        rw [if_neg (by simp [hc])]
        rw [if_neg (by simp [emDashAhead_nohyphen rest hc])]
        rw [ih (c :: left) (c :: acc) rest hfr hrest]
        simp

theorem takeLine_single_fit {w : ℕ} {ch : List Char} (h : ch.length ≤ w) :
    takeLine w 0 [ch] = ([ch], []) := by
  unfold takeLine
  rw [if_pos (by omega)]
  rfl

theorem takeLine_single_over {w : ℕ} {ch : List Char} (h : ¬ ch.length ≤ w) :
    takeLine w 0 [ch] = ([], [ch]) := by
  unfold takeLine
  rw [if_neg (by omega)]

theorem handleLongWord_nohyphen {w : ℕ} (hw : w ≠ 0) {ch : List Char}
    (hlt : w < ch.length) (hh : ∀ c ∈ ch, c ≠ '-') :
    handleLongWord w 0 ch = (ch.take w, ch.drop w) := by
  have hnh : lastHyphenPos (ch.take w) = Option.none :=
    lastHyphenPos_nohyphen (fun c hc => hh c ((List.take_sublist w ch).subset hc))
  simp only [handleLongWord]
  rw [if_neg (by omega : ¬ w < 1)]
  simp only [Nat.sub_zero]
  rw [if_pos hlt, hnh]

theorem packLines_single_nohyphen {w : ℕ} (hw : w ≠ 0) :
    ∀ (fuel : ℕ) (ch : List Char), ch ≠ [] → (∀ c ∈ ch, c ≠ '-') →
      packLines w fuel [ch] = specChunksF fuel ch w := by
  intro fuel
  induction fuel with
  | zero =>
    intro ch _ _
    rfl
  | succ f ih =>
    intro ch hne hh
    by_cases hle : ch.length ≤ w
    · unfold packLines
      rw [takeLine_single_fit hle]
      simp only [List.isEmpty_cons, Bool.false_eq_true, if_false,
        List.flatten_cons, List.flatten_nil, List.append_nil]
      rw [packLines_nil]
      unfold specChunksF
      rw [if_neg (by simp [hne, hw])]
      rw [List.take_of_length_le hle, List.drop_eq_nil_of_le hle, specChunksF_nil]
    · unfold packLines
      rw [takeLine_single_over hle]
      simp only []
      rw [if_pos (show w < ch.length by omega)]
      simp only [List.map_nil, List.sum_nil]
      rw [handleLongWord_nohyphen hw (by omega) hh]
      simp only [List.nil_append, List.isEmpty_cons, Bool.false_eq_true, if_false,
        List.flatten_cons, List.flatten_nil, List.append_nil]
      rw [ih (ch.drop w) (by
          intro hd
          have := congrArg List.length hd
          simp at this
          omega)
        (fun c hc => hh c ((List.drop_sublist w ch).subset hc))]
      conv_rhs => rw [specChunksF]
      rw [if_neg (by simp [hne, hw])]

theorem specChunksF_congr {w : ℕ} (hw : w ≠ 0) :
    ∀ (f1 f2 : ℕ) (text : List Char), text.length ≤ f1 → text.length ≤ f2 →
      specChunksF f1 text w = specChunksF f2 text w := by
  intro f1
  induction f1 with
  | zero =>
    intro f2 text h1 _
    have h0 : text = [] := List.eq_nil_of_length_eq_zero (by omega)
    subst h0
    rw [specChunksF_nil, specChunksF_nil]
  | succ f ih =>
    intro f2 text h1 h2
    match f2, text with
    | g, [] => rw [specChunksF_nil, specChunksF_nil]
    | 0, c :: t =>
      simp at h2
    | g + 1, c :: t =>
      unfold specChunksF
      rw [if_neg (by simp [hw]), if_neg (by simp [hw])]
      have hl : ((c :: t).drop w).length ≤ f := by
        simp only [List.length_drop, List.length_cons]
        simp only [List.length_cons] at h1
        omega
      have hl2 : ((c :: t).drop w).length ≤ g := by
        simp only [List.length_drop, List.length_cons]
        simp only [List.length_cons] at h2
        omega
      rw [ih g ((c :: t).drop w) hl hl2]

theorem textwrap_wrap_nohyphen {text : List Char} {w : ℕ} (hne : text ≠ [])
    (hw : w ≠ 0) (hh : ∀ c ∈ text, c ≠ '-') :
    textwrap_wrap text w = .ok (specChunks text w) := by
  unfold textwrap_wrap
  rw [if_neg hw]
  congr 1
  rw [splitScan_nohyphen (2 * text.length + 1) [] [] text (by omega) hh]
  rw [if_neg (by simp [hne])]
  simp only [List.reverse_nil, List.nil_append]
  rw [packLines_single_nohyphen hw (2 * text.length + 1) text hne hh]
  exact specChunksF_congr hw (2 * text.length + 1) text.length text (by omega) le_rfl

/-- Claim C8 — counterexample.  The claim reads fixed-width wrapping as
plain chunking into runs of `width` characters for *every* admissible
text.  The 9-character text `ab-def-gh` with separator `-` and width `4`
passes every gate of the wrapper (the separator strip removes the hyphens
before the punctuation check), yet `textwrap.wrap`'s hyphen-aware
splitting returns the lines `ab-`, `def-`, `gh`, so the program produces
`ab--def--gh` — not the plain chunking `ab-d-ef-g-h` the claim
prescribes. -/
theorem claim8_counterexample :
    wrap_text "ab-def-gh".toList ['-'] (.intWidth 4) false false
        = .ok "ab--def--gh".toList
      ∧ List.intercalate ['-'] (specChunks "ab-def-gh".toList 4)
        = "ab-d-ef-g-h".toList
      ∧ "ab--def--gh".toList ≠ "ab-d-ef-g-h".toList :=
  ⟨rfl, rfl, by decide⟩

/-- Claim C8 — amended.  Fixed-width wrapping outside word mode for a
whitespace-free and *hyphen-free* text of length above 1 (on such texts
`textwrap.wrap` degenerates to plain chunking) and a positive width: a
width below the text length chunks the text into runs of `width`
characters joined by the separator; a width equal to the text length or
exceeding it by exactly 1 is silently decremented by one before chunking;
a width exceeding the text length by more than 1 raises `KeyException`.
Texts containing the hyphen separator itself are *not* plain-chunked (see
the counterexample). -/
theorem claim8_amended (text sep : List Char) (w : ℕ)
    (hlen : 1 < text.length) (hw : 1 ≤ w) (hsep : sep ≠ ALL_CHARS)
    (hp : punctDetected (text.filter (keepPred sep)) = false)
    (hws : ∀ c ∈ text, c ∉ whitespaceChars)
    (hhy : ∀ c ∈ text, c ≠ '-') :
    (w < text.length →
      wrap_text text sep (.intWidth w) false false
        = .ok (List.intercalate sep (specChunks text w)))
    ∧ (text.length ≤ w → w ≤ text.length + 1 →
      wrap_text text sep (.intWidth w) false false
        = .ok (List.intercalate sep (specChunks text (w - 1))))
    ∧ (text.length + 1 < w →
      wrap_text text sep (.intWidth w) false false
        = .error ⟨.KeyException, "INVALID SEP-WIDTH"⟩) := by
  have hne : text ≠ [] := by
    intro h0
    rw [h0] at hlen
    simp at hlen
  have hbase := wrap_text_eval (.intWidth w) hsep hp
  simp only [] at hbase
  rw [if_neg (by omega)] at hbase
  refine ⟨?_, ?_, ?_⟩
  · intro h
    rw [hbase]
    unfold fixedBranch
    rw [if_neg (by omega)]
    rw [textwrap_wrap_nohyphen hne (by omega) hhy]
  · intro ha hb2
    rw [hbase]
    unfold fixedBranch
    rw [if_pos ⟨by omega, ha⟩, if_pos (by omega)]
    rw [textwrap_wrap_nohyphen hne (by omega) hhy]
  · intro h
    rw [hbase]
    unfold fixedBranch
    rw [if_pos ⟨by omega, by omega⟩, if_neg (by omega)]

/-- Claim C8 — witness for the amended theorem: wrapping the hyphen-free
6-character text `abcdef` with separator `-` and the default-like width 4
chunks it into runs of 4. -/
theorem claim8_amended_witness :
    wrap_text "abcdef".toList ['-'] (.intWidth 4) false false
      = .ok (List.intercalate ['-'] (specChunks "abcdef".toList 4)) :=
  (claim8_amended "abcdef".toList ['-'] 4 (by decide) (by decide)
    (by decide) (by decide) (by decide) (by decide)).1 (by decide)

/-- Claim C9 — confirmed.  Explicit-offsets wrapping outside word mode:
for a non-empty collection of non-negative integer offsets whose maximum
does not exceed the text length, the result is the text with the
separator inserted immediately before the character at each offset
(offset 0 prefixing the whole string) and all other characters unchanged
in order; when the maximum offset exceeds the text length the wrapper
raises `KeyException`. -/
theorem claim9_offsets (text sep : List Char) (l : List ℤ)
    (hne : l ≠ []) (hnn : ∀ x ∈ l, 0 ≤ x) (hsep : sep ≠ ALL_CHARS)
    (hp : punctDetected (text.filter (keepPred sep)) = false) :
    (offsetsMax l ≤ (text.length : ℤ) →
      wrap_text text sep (.idxWidth l) false false = .ok (insertSep text sep l))
    ∧ ((text.length : ℤ) < offsetsMax l →
      wrap_text text sep (.idxWidth l) false false
        = .error ⟨.KeyException, "INVALID WIDTH-RANGE"⟩) := by
  have hbase := wrap_text_eval (.idxWidth l) hsep hp
  simp only [] at hbase
  have hie : l.isEmpty = false := by
    cases l with
    | nil => exact absurd rfl hne
    | cons a t => rfl
  rw [hie] at hbase
  simp only [Bool.false_eq_true, if_false] at hbase
  have hall : (l.all fun x => decide (0 ≤ x)) = true := by
    rw [List.all_eq_true]
    intro x hx
    simpa using hnn x hx
  constructor
  · intro h
    rw [hbase]
    unfold offsetsBranch
    rw [if_neg (by simp [hall]), if_neg (not_lt.mpr h)]
  · intro h
    rw [hbase]
    unfold offsetsBranch
    rw [if_neg (by simp [hall]), if_pos h]

/-- Claim C9 — witness: separators inserted before offsets 2 and 5 of an
8-character text; the UUID-style offsets stay within the text length. -/
theorem claim9_witness :
    wrap_text "abcdefgh".toList ['-'] (.idxWidth [2, 5]) false false
      = .ok (insertSep "abcdefgh".toList ['-'] [2, 5]) :=
  (claim9_offsets "abcdefgh".toList ['-'] [2, 5] (by decide) (by decide)
    (by decide) (by decide)).1 (by decide)
